import Mathlib

/-!
Shallow embedding of the roundabout simulator (repository `roundabout_sim`).

Sources embedded here:
* `src/src/lib.rs`   — engine snapshot: `Action`, `Car`, `SimpleDriver`,
  `RoundaboutSimSetting`, `RoundaboutSim::update`, `straight_collision`,
  `switch_collision`, `sim_run`;
* `src/src/common.rs` — `unwrap_theta`, `is_on_lane`, tolerance constants;
* `src/src/drivers.rs` — `ShortestDistDriver::drive`;
* `src/src/setting.rs` — `RoundaboutSimSetting::new` (scenario validation).

Modelling conventions:
* `f32` values are embedded as exact rationals (`ℚ`); rounding of `f32`
  arithmetic is not modelled.  The `f32` constant `PI` is embedded as the
  exact rational value of the 32-bit float nearest π.
* A complex number produced by `Complex::from_polar(r, θ)` with `r ≥ 0` is
  represented by its polar data `(norm, principal argument)`; `.arg()` of a
  quotient of two such numbers is the wrapped difference of the arguments,
  and `.norm()` of a difference is computed by the law of cosines, with
  `f32::cos` modelled by a truncated Maclaurin polynomial (`cosq`) applied
  to the wrapped (principal) angle.
* Rust panics on out-of-bounds indexing are not modelled: list indexing
  uses a default element, and theorems that depend on an index carry an
  explicit in-range hypothesis.
* `HashMap` iteration order is unspecified in Rust; the engine loops are
  modelled iterating lanes in increasing index order.
-/

namespace RoundaboutSim

/-- `f32` value of `std::f32::consts::PI` (the 32-bit float nearest π),
as an exact rational: `13176795 * 2⁻²²`. -/
def piq : ℚ := 13176795 / 4194304

/-- One full turn, `2.0 * PI` in the source. -/
def twoPiq : ℚ := 2 * piq

/-- `DIST_ALLOW = 1e-2` (src/src/lib.rs:72). -/
def DIST_ALLOW : ℚ := 1 / 100

/-- `THETA_ALLOW = 1e-2 * PI` (src/src/lib.rs:73, src/src/common.rs:7). -/
def THETA_ALLOW : ℚ := (1 / 100) * piq

/-- `MIN_UPDATE_TICK = 1e-2` (src/src/lib.rs:74). -/
def MIN_UPDATE_TICK : ℚ := 1 / 100

/-- `DRIFT_ALLOW = 1e-2` (src/src/common.rs:8). -/
def DRIFT_ALLOW : ℚ := 1 / 100

/-- Exact rational value of `f32::MAX` = `(2 − 2⁻²³) · 2¹²⁷`. -/
def fMAX : ℚ := 2 ^ 128 - 2 ^ 104

/-- Reduce an angle to the principal range `(-π, π]`: the value returned by
`Complex::arg` / `to_polar`.  `wrapPrincipal x = x - 2π·⌈(x - π)/(2π)⌉`. -/
def wrapPrincipal (x : ℚ) : ℚ := x - twoPiq * ⌈(x - piq) / twoPiq⌉

/-- `unwrap_theta` (src/src/lib.rs:76-82, src/src/common.rs:20-22): map a
negative principal angle into `[0, 2π)` by adding one full turn. -/
def unwrapTheta (theta : ℚ) : ℚ := if theta < 0 then theta + twoPiq else theta

/-- Polar representation of a nonnegative-radius complex position:
`r` is `Complex::norm`, `theta` is `Complex::arg` (kept principal by every
constructor in the engine). -/
structure Polar where
  r : ℚ
  theta : ℚ
deriving DecidableEq, Repr

/-- `Complex::from_polar r θ` observed through `(norm, arg)`: the stored
argument is the principal value of `θ`. -/
def Polar.fromPolar (r theta : ℚ) : Polar := ⟨r, wrapPrincipal theta⟩

/-- `(a / b).arg()` for two polar-represented complex numbers (also models
`fdiv`, which agrees with `/` on finite nonzero inputs). -/
def Polar.argDiv (a b : Polar) : ℚ := wrapPrincipal (a.theta - b.theta)

/-- Truncated Maclaurin polynomial for `f32::cos` on a principal angle
(degree 8; exact at 0, used only through `normSq` below). -/
def cosq (x : ℚ) : ℚ :=
  1 - x ^ 2 / 2 + x ^ 4 / 24 - x ^ 6 / 720 + x ^ 8 / 40320

/-- `((a - b).norm())²` by the law of cosines, with `cos` modelled by
`cosq` of the wrapped angle difference. -/
def normSq (a b : Polar) : ℚ :=
  a.r ^ 2 + b.r ^ 2 - 2 * a.r * b.r * cosq (wrapPrincipal (a.theta - b.theta))

/-- `Action` (src/src/lib.rs:17-22, src/src/common.rs:10-15). -/
inductive Action where
  | Switch : ℤ → Action
  | Straight : Action
  | Stop : Action
deriving DecidableEq, Repr

/-- `SwitchPolicy` (src/src/lib.rs:135-140, src/src/setting.rs:5-9). -/
inductive SwitchPolicy where
  | SwitchFirst : SwitchPolicy
  | StraightFirst : SwitchPolicy
deriving DecidableEq, Repr

/-- `RoundaboutSimSetting` (src/src/lib.rs:142-148, src/src/setting.rs:11-17). -/
structure Setting where
  nInter : ℕ
  rLanes : List ℚ
  tick : ℚ
  switchPolicy : SwitchPolicy
deriving DecidableEq, Repr

/-- `Car` (src/src/lib.rs:62-70).  The `driver` field is omitted: every
constructor in src/src/lib.rs installs `SimpleDriver`, which the engine
embedding calls directly. -/
structure Car where
  id : ℕ
  pos : Polar
  vel : ℚ
  lane : ℕ
  dst : Polar
  action : Action
deriving DecidableEq, Repr

instance : Inhabited Car :=
  ⟨{ id := 0, pos := ⟨0, 0⟩, vel := 0, lane := 0, dst := ⟨0, 0⟩, action := Action.Stop }⟩

/-- `Car::finished` (src/src/lib.rs:93-95):
`lane == 0 && (dst - pos).norm() <= DIST_ALLOW`. -/
def Car.finished (c : Car) : Bool :=
  c.lane == 0 && decide (normSq c.dst c.pos ≤ DIST_ALLOW ^ 2)

/-- `is_on_lane` (src/src/common.rs:24-27): the distance between `pos` and
the ideal point at the same angle on the lane circle is within
`DRIFT_ALLOW`.  The two points share an angle, so the squared distance is
`(pos.r - r_lane)²` (and indeed `normSq` reduces to that, by `cosq 0 = 1`). -/
def is_on_lane (pos : Polar) (rLane : ℚ) : Bool :=
  decide (normSq pos ⟨rLane, pos.theta⟩ ≤ DRIFT_ALLOW ^ 2)

/-- `inf_lt o x` models `o < x` where `o` is an `f32` that may be
`INFINITY` (`none`): infinity is smaller than nothing. -/
def infLt (o : Option ℚ) (x : ℚ) : Bool :=
  match o with
  | none => false
  | some d => decide (d < x)

/-- `SimpleDriver::drive` (src/src/lib.rs:30-60).  The detour cost uses
`2.0 * r_inner`, exactly as the source line 50 does. -/
def simpleDrive (c : Car) (s : Setting) : Action :=
  let remTheta := |Polar.argDiv c.dst c.pos|
  if c.finished then Action.Stop
  else if 0 < c.lane ∧ remTheta ≤ THETA_ALLOW then Action.Switch (-1)
  else
    let r0 := s.rLanes.getD 0 0
    let rCurr := s.rLanes.getD c.lane 0
    let uw := unwrapTheta (Polar.argDiv c.dst c.pos)
    let straightDist := rCurr * uw + (r0 - rCurr)
    -- `f32::INFINITY` is modelled by `none`; `none < x` is false.
    let switchInDist : Option ℚ :=
      if s.rLanes.length - 1 ≤ c.lane then none
      else
        let rInner := s.rLanes.getD (c.lane + 1) 0
        some (2 * rInner + rInner * uw + (r0 - rCurr))
    if infLt switchInDist straightDist && decide (c.lane < s.rLanes.length - 1) then
      Action.Switch 1
    else Action.Straight

/-- `ShortestDistDriver::drive` (src/src/drivers.rs:61-94).  Identical to
`simpleDrive` except the detour cost charges `2 * (r_curr - r_inner)` for
the two adjacent-lane radial legs (line 84 of drivers.rs). -/
def shortestDistDrive (c : Car) (s : Setting) : Action :=
  let remTheta := |Polar.argDiv c.dst c.pos|
  if c.finished then Action.Stop
  else if 0 < c.lane ∧ remTheta ≤ THETA_ALLOW then Action.Switch (-1)
  else
    let r0 := s.rLanes.getD 0 0
    let rCurr := s.rLanes.getD c.lane 0
    let uw := unwrapTheta (Polar.argDiv c.dst c.pos)
    let straightDist := rCurr * uw + (r0 - rCurr)
    let switchInDist : Option ℚ :=
      if s.rLanes.length ≤ c.lane + 1 then none
      else
        let rInner := s.rLanes.getD (c.lane + 1) 0
        some (2 * (rCurr - rInner) + rInner * uw + (r0 - rCurr))
    if infLt switchInDist straightDist && decide (c.lane < s.rLanes.length - 1) then
      Action.Switch 1
    else Action.Straight

/-- Shorthand for indexing the shared car list (a `Vec<Shared<Car>>` cell). -/
def gd (cars : List Car) (i : ℕ) : Car := cars.getD i default

/-- Indices (into the θ-sorted flat car list) of the cars on lane `l`:
the by-lane grouping of `RoundaboutSim::update` (src/src/lib.rs:304-311),
with list order preserved. -/
def laneIdx (cars : List Car) (l : ℕ) : List ℕ :=
  (List.range cars.length).filter (fun i => (gd cars i).lane == l)

/-- `RoundaboutSim::straight_collision` (src/src/lib.rs:477-492): time for
`car_follow` (action `Straight`) to reach `car_precede`'s current angular
position; `f32::MAX` otherwise.  The source's two asserts (same lane,
distinct ids) hold at every call site by construction of the by-lane
grouping and are not modelled. -/
def straightCollision (s : Setting) (carFollow carPrecede : Car) : ℚ :=
  match carFollow.action with
  | Action.Straight =>
      let marginTheta := unwrapTheta (Polar.argDiv carPrecede.pos carFollow.pos)
      marginTheta * s.rLanes.getD carFollow.lane 0 / carFollow.vel
  | _ => fMAX

/-- One iteration of the straight-collision loop of
`RoundaboutSim::update` (src/src/lib.rs:320-348): the closure
`possible_straight_collision` applied to the pair (follower `idxs[k]`,
leader `idxs[(k+1) % len]`), then `if this_tick < tick { tick = this_tick }`. -/
def stopRuleStep (s : Setting) (idxs : List ℕ) (st : List Car × ℚ) (k : ℕ) :
    List Car × ℚ :=
  if 1 < idxs.length then
    let fi := idxs.getD k 0
    let pj := idxs.getD ((k + 1) % idxs.length) 0
    let f := gd st.1 fi
    let t := straightCollision s f (gd st.1 pj)
    if t ≤ MIN_UPDATE_TICK then
      -- follower forced to `Stop`; the closure returns `f32::MAX`
      (st.1.set fi { f with action := Action.Stop },
       if fMAX < st.2 then fMAX else st.2)
    else
      (st.1, if t < st.2 then t else st.2)
  else st

/-- Straight-collision handling for one lane's (angularly ordered) car
indices (src/src/lib.rs:335-348, one iteration of the outer `for`). -/
def straightPassLane (s : Setting) (idxs : List ℕ) (st : List Car × ℚ) :
    List Car × ℚ :=
  (List.range idxs.length).foldl (stopRuleStep s idxs) st

/-- The whole straight-collision phase of `RoundaboutSim::update`
(src/src/lib.rs:320-348).  The by-lane grouping is snapshotted from the
input list (lane indices never change during the phase); `HashMap`
iteration order, unspecified in Rust, is modelled as increasing lane
index — the resulting actions and tick do not depend on that order. -/
def straightPass (s : Setting) (cars : List Car) (tick : ℚ) : List Car × ℚ :=
  (List.range s.rLanes.length).foldl
    (fun st l => straightPassLane s (laneIdx cars l) st) (cars, tick)

/-- `RoundaboutSim::switch_collision` (src/src/lib.rs:447-471). -/
def switchCollision (s : Setting) (carSwitch carOther : Car) (tick : ℚ) : Bool :=
  match carOther.action, carSwitch.action with
  | Action.Straight, Action.Switch diffLane =>
      -- `(car_switch.lane as i32 + diff_lane) as usize != car_other.lane`:
      -- compared in ℤ (a negative sum wraps to a huge usize, never equal).
      if ((carSwitch.lane : ℤ) + diffLane) ≠ (carOther.lane : ℤ) then false
      else
        let rLane := s.rLanes.getD carOther.lane 0
        let thetaS := carSwitch.pos.theta
        let thetaC := carOther.pos.theta
        -- arg(switch_target / other_curr) ≥ 0 ∧ arg(other_target / switch_target) ≤ 0
        decide (0 ≤ wrapPrincipal (thetaS - thetaC) ∧
                wrapPrincipal (thetaC + carOther.vel * tick / rLane - thetaS) ≤ 0)
  | _, _ => false

/-- The closure `possbile_switch_collision` (src/src/lib.rs:350-362):
on a detected conflict, `StraightFirst` halts the switching car and
normalizes its radius to its source lane; otherwise (`SwitchFirst`) the
straight-moving neighbor is halted. -/
def possibleSwitchCollision (s : Setting) (tick : ℚ) (switchingCar carFollow : Car) :
    Car × Car :=
  if switchCollision s switchingCar carFollow tick then
    match s.switchPolicy with
    | SwitchPolicy.StraightFirst =>
        ({ switchingCar with
            pos := Polar.fromPolar (s.rLanes.getD switchingCar.lane 0)
                     switchingCar.pos.theta,
            action := Action.Stop }, carFollow)
    | SwitchPolicy.SwitchFirst =>
        (switchingCar, { carFollow with action := Action.Stop })
  else (switchingCar, carFollow)

/-- Apply `possbile_switch_collision` to the cars at indices `ci`
(switching) and `fj` (neighbor), writing both cells back. -/
def applySwitchPair (s : Setting) (tick : ℚ) (cars : List Car) (ci fj : ℕ) :
    List Car :=
  let p := possibleSwitchCollision s tick (gd cars ci) (gd cars fj)
  (cars.set ci p.1).set fj p.2

/-- Switch-collision handling for the single car at flat index `ci`
(src/src/lib.rs:363-398, inner loop body).  `groupsOf l` is the by-lane
snapshot; the binary-search insertion point over the θ-sorted lane list is
modelled as the count of members with angle strictly below the switching
car's (for an exact angle match Rust may return any matching position;
the first is taken).  A `Switch 0` self-conflict would panic in Rust
(RefCell double borrow) and is not modelled. -/
def switchPassCar (s : Setting) (tick : ℚ) (groupsOf : ℕ → List ℕ)
    (cars : List Car) (ci : ℕ) : List Car :=
  let c := gd cars ci
  match c.action with
  | Action.Switch diffLane =>
      let nl : ℤ := (c.lane : ℤ) + diffLane
      if 0 ≤ nl then
        let idxs := groupsOf nl.toNat
        match idxs with
        | [] => cars   -- `by_lane.get(..)` is `None`
        | _ :: _ =>
            let thetaS := c.pos.theta
            let k := (idxs.filter (fun j => decide ((gd cars j).pos.theta < thetaS))).length
            let cars1 :=
              if 0 < k then applySwitchPair s tick cars ci (idxs.getD (k - 1) 0)
              else cars
            applySwitchPair s tick cars1 ci (idxs.getLast?.getD 0)
      else cars    -- negative lane wraps to a huge usize: `by_lane.get` is `None`
  | _ => cars

/-- The whole switch-collision phase of `RoundaboutSim::update`
(src/src/lib.rs:349-399), iterating lanes in increasing index and each
lane's cars in angular order (the Rust `HashMap` order is unspecified). -/
def switchPass (s : Setting) (tick : ℚ) (cars : List Car) : List Car :=
  let groupsOf := fun l => laneIdx cars l
  (List.range s.rLanes.length).foldl
    (fun cs l => (laneIdx cars l).foldl (switchPassCar s tick groupsOf) cs) cars

/-- `Car::update` (src/src/lib.rs:105-132): physical integration of the
finalized action over `tick`. -/
def Car.updatePhys (c : Car) (tick : ℚ) (s : Setting) : Car :=
  match c.action with
  | Action.Switch diffLane =>
      let nextR := c.pos.r + (-(diffLane : ℚ)) * c.vel * tick
      let targetLane := ((c.lane : ℤ) + diffLane).toNat
      let targetR := s.rLanes.getD targetLane 0
      if (diffLane < 0 ∧ targetR ≤ nextR) ∨ (0 < diffLane ∧ nextR ≤ targetR) then
        { c with pos := Polar.fromPolar targetR c.pos.theta, lane := targetLane }
      else
        { c with pos := Polar.fromPolar nextR c.pos.theta }
  | Action.Straight =>
      let mvTheta := c.vel * tick / s.rLanes.getD c.lane 0
      let nextTheta := unwrapTheta c.pos.theta + mvTheta
      let targetTheta := unwrapTheta c.dst.theta
      if targetTheta ≤ nextTheta then
        { c with pos := Polar.fromPolar c.pos.r targetTheta }
      else
        { c with pos := Polar.fromPolar c.pos.r nextTheta }
  | Action.Stop => c

/-- `RoundaboutSim` state (src/src/lib.rs:255-260). -/
structure SimState where
  t : ℚ
  setting : Setting
  cars : List Car
  finishedCars : List Car
deriving DecidableEq, Repr

/-- θ-ordering used by `self.cars.sort_by_key(|car| OrderedFloat(car.pos.arg()))`
(src/src/lib.rs:306). -/
def thetaLE (a b : Car) : Prop := a.pos.theta ≤ b.pos.theta

instance : DecidableRel thetaLE := fun _ _ => inferInstanceAs (Decidable (_ ≤ _))

/-- The stable sort of the active car list by angular position
(src/src/lib.rs:306), modelled by insertion sort (ties keep an
unspecified order in Rust; no claim depends on tie order). -/
def sortCars (cars : List Car) : List Car := List.insertionSort thetaLE cars

/-- The proposal phase of one engine step (src/src/lib.rs:306,314-319):
sort by angle, then every car determines its action; every car's driver
is `SimpleDriver`. -/
def proposedCars (sim : SimState) : List Car :=
  (sortCars sim.cars).map (fun c => { c with action := simpleDrive c sim.setting })

/-- The tick chosen by one engine step: the ceiling `setting.tick` shrunk
by the straight-collision pass (src/src/lib.rs:312-348). -/
def stepTick (sim : SimState) : ℚ :=
  (straightPass sim.setting (proposedCars sim) sim.setting.tick).2

/-- The car states after collision arbitration and physical integration
(src/src/lib.rs:320-399,406-409). -/
def integratedCars (sim : SimState) : List Car :=
  let passed := straightPass sim.setting (proposedCars sim) sim.setting.tick
  (switchPass sim.setting passed.2 passed.1).map
    (fun c => c.updatePhys passed.2 sim.setting)

/-- One full engine step, `RoundaboutSim::update` (src/src/lib.rs:302-442),
up to but excluding the progress assertion: returns the next state, the
`all_finished` flag and the `has_progress` flag (time advance:
src/src/lib.rs:400; progress flag and completion bookkeeping:
src/src/lib.rs:401-430). -/
def updateCore (sim : SimState) : SimState × Bool × Bool :=
  let integrated := integratedCars sim
  let hasProgress := integrated.any (fun c => !(c.action == Action.Stop) || c.finished)
  let newFinished := integrated.filter (fun c => c.finished)
  let nextCars := integrated.filter (fun c => !c.finished)
  ({ t := sim.t + stepTick sim, setting := sim.setting, cars := nextCars,
     finishedCars := sim.finishedCars ++ newFinished },
   nextCars.isEmpty, hasProgress)

/-- `RoundaboutSim::update` with the progress assertion
(src/src/lib.rs:431): `none` models the fatal
`assert!(has_progress || all_finished)` panic; otherwise the new state and
the `all_finished` return value. -/
def updateE (sim : SimState) : Option (SimState × Bool) :=
  let r := updateCore sim
  if r.2.2 || r.2.1 then some (r.1, r.2.1) else none

/-- `sim_run`'s driving loop (src/src/lib.rs:497-508), with explicit fuel
standing in for the unbounded `while`; `none` covers "time budget
exhausted without finishing", the assertion panic, and fuel exhaustion. -/
def simRunAux : ℕ → SimState → ℚ → Option SimState
  | 0, _, _ => none
  | fuel + 1, sim, maxT =>
      if sim.t < maxT ∨ maxT < 0 then
        match updateE sim with
        | none => none
        | some (sim1, true) => some sim1
        | some (sim1, false) => simRunAux fuel sim1 maxT
      else none

/-! ### Scenario construction (src/src/setting.rs:85-114, src/src/lib.rs:223-290) -/

/-- Raw scenario input as consumed by `RoundaboutSimSetting::new` /
`RoundaboutSim::new`: each `Option` is the result of the corresponding
json accessor (`as_f32`, `as_usize`, `as_str`, `String::parse`), `none`
meaning the field is absent or unparseable.  A missing `r_lanes` key
yields an empty member list in the `json` crate, hence `rLanes = []`. -/
structure RawCar where
  lane : Option ℕ
  theta : Option ℚ
  vel : Option ℚ
  dst : Option ℚ
deriving DecidableEq, Repr

structure RawScenario where
  rLanes : List (Option ℚ)
  nInter : Option ℕ
  tick : Option ℚ
  /-- `none`: key absent; `some none`: present but `as_str` fails;
  `some (some v)`: present with string value `v`. -/
  switchPolicyKey : Option (Option String)
  /-- `none`: no `init` key; otherwise the entries, each with the parsed
  id key and raw field values. -/
  init : Option (List (Option ℕ × RawCar))
deriving DecidableEq, Repr

/-- How construction fails: an `assert!` panic, or an early `None` return
(`?` on a missing/unparseable field). -/
inductive ConstructErr where
  | panicked : ConstructErr
  | parseNone : ConstructErr
deriving DecidableEq, Repr

/-- The `r_lanes` collection loop (src/src/setting.rs:87-89): push each
member's `as_f32`, aborting with `None` at the first unparseable one. -/
def parseLanes : List (Option ℚ) → Option (List ℚ)
  | [] => some []
  | none :: _ => none
  | some x :: rest =>
      match parseLanes rest with
      | none => none
      | some xs => some (x :: xs)

/-- `RoundaboutSimSetting::new` (src/src/setting.rs:85-114; the copy at
src/src/lib.rs:223-252 is identical except that its default
`switch_policy` is `SwitchFirst` — the default is irrelevant to the
claims below).  The reversed-list `is_sorted` check is non-strict. -/
def settingNew (j : RawScenario) : Except ConstructErr Setting :=
  match parseLanes j.rLanes with
  | none => Except.error ConstructErr.parseNone
  | some rl =>
    if 0 < rl.length ∧ List.Chain' (· ≤ ·) rl.reverse then
      match j.nInter with
      | none => Except.error ConstructErr.parseNone
      | some ni =>
        match j.tick with
        | none => Except.error ConstructErr.parseNone
        | some tk =>
          match j.switchPolicyKey with
          | some none => Except.error ConstructErr.parseNone
          | some (some v) =>
              if rl.length = 0 then Except.error ConstructErr.parseNone
              else Except.ok
                { nInter := ni, rLanes := rl, tick := tk,
                  switchPolicy :=
                    if v = "SwitchFirst" then SwitchPolicy.SwitchFirst
                    else SwitchPolicy.StraightFirst }
          | none =>
              if rl.length = 0 then Except.error ConstructErr.parseNone
              else Except.ok
                { nInter := ni, rLanes := rl, tick := tk,
                  switchPolicy := SwitchPolicy.StraightFirst }
    else Except.error ConstructErr.panicked

/-- One `init` entry of `RoundaboutSim::new` (src/src/lib.rs:269-283). -/
def carFromRaw (s : Setting) (key : Option ℕ) (rc : RawCar) : Option Car := do
  let lane ← rc.lane
  let r ← s.rLanes[lane]?
  let theta ← rc.theta
  let id ← key
  let vel ← rc.vel
  let dstv ← rc.dst
  pure { id := id, pos := Polar.fromPolar r theta, vel := vel, lane := lane,
         dst := Polar.fromPolar (s.rLanes.getD 0 0)
                  (twoPiq / (s.nInter : ℚ) * dstv),
         action := Action.Straight }

/-- The car collection loop of `RoundaboutSim::new`
(src/src/lib.rs:268-283), aborting at the first failing entry. -/
def carsFromRaw (s : Setting) : List (Option ℕ × RawCar) → Option (List Car)
  | [] => some []
  | e :: rest =>
      match carFromRaw s e.1 e.2 with
      | none => none
      | some c =>
          match carsFromRaw s rest with
          | none => none
          | some cs => some (c :: cs)

/-- `RoundaboutSim::new` (src/src/lib.rs:263-290): `none` when the `init`
key is missing or any car entry fails to parse. -/
def simNew (s : Setting) (j : RawScenario) : Option SimState :=
  match j.init with
  | none => none
  | some entries =>
      match carsFromRaw s entries with
      | none => none
      | some cars =>
          some { t := 0, setting := s, cars := cars, finishedCars := [] }

/-! ### Parts of the design absent from the `src/` snapshot,
modelled from the spec -/

/-- Modelled from the spec: the consistency guard of engine step 3
(spec section 4.3) is absent from the `RoundaboutSim::update` snapshot in
src/src/lib.rs; only `is_on_lane` (src/src/common.rs:24-27) exists in
src/.  Per the spec, a car proposing `Straight` while not aligned with
its nominal lane radius is forcibly downgraded to `Stop`. -/
def consistencyGuard (s : Setting) (cars : List Car) : List Car :=
  cars.map (fun c =>
    if c.action = Action.Straight ∧
        is_on_lane c.pos (s.rLanes.getD c.lane 0) = false then
      { c with action := Action.Stop }
    else c)

/-- Outcome of the side-collision check between two same-direction
switching cars. -/
inductive SideOutcome where
  | noConflict : SideOutcome
  | clampTo : ℚ → SideOutcome
  | stopOne : SideOutcome
deriving DecidableEq, Repr

/-- Modelled from the spec: the side-collision check (spec section 4.3,
tick-computation bullet 3) is absent from the `RoundaboutSim::update`
snapshot in src/src/lib.rs.  Two cars switching in the same radial
direction close at radial speeds `|a.vel - b.vel|`, so their radial
separation closes to zero after `|a.r - b.r| / |a.vel - b.vel|`;
equal speeds never meet. -/
def sideTimeToContact (a b : Car) : Option ℚ :=
  if a.vel = b.vel then none else some (|a.pos.r - b.pos.r| / |a.vel - b.vel|)

/-- Modelled from the spec: resolution of a side collision (spec section
4.3, tick-computation bullet 3): for two cars both switching in the same
radial direction within the same lane and angularly within half the
minimal angular-alignment tolerance, if they would meet before the
tentative tick elapses, clamp the tick to the time-to-contact, or force
one of the two to `Stop` when that time is at or below the minimal
threshold. -/
def sideCollisionStep (a b : Car) (tick : ℚ) : SideOutcome :=
  match a.action, b.action with
  | Action.Switch d1, Action.Switch d2 =>
      if d1 = d2 ∧ a.lane = b.lane ∧
          |wrapPrincipal (a.pos.theta - b.pos.theta)| ≤ THETA_ALLOW / 2 then
        match sideTimeToContact a b with
        | some t =>
            if t < tick then
              if t ≤ MIN_UPDATE_TICK then SideOutcome.stopOne
              else SideOutcome.clampTo t
            else SideOutcome.noConflict
        | none => SideOutcome.noConflict
      else SideOutcome.noConflict
  | _, _ => SideOutcome.noConflict

/-! ### Claim-side (specification) reformulations

These definitions follow the wording of the claims, to be compared with
the loop translations above. -/

/-- The claim's formula for the time for a `Straight` follower to reach
the leader's current angular position:
(unwrapped angular gap) × (lane radius) / (follower speed). -/
def followTime (s : Setting) (f p : Car) : ℚ :=
  unwrapTheta (Polar.argDiv p.pos f.pos) * s.rLanes.getD f.lane 0 / f.vel

/-- The angularly adjacent (follower, leader) index pairs of lane `l`,
the lane treated as a ring via wrap-around; a lane with at most one car
has no pairs. -/
def lanePairs (cars : List Car) (l : ℕ) : List (ℕ × ℕ) :=
  let idxs := laneIdx cars l
  if 1 < idxs.length then
    (List.range idxs.length).map
      (fun k => (idxs.getD k 0, idxs.getD ((k + 1) % idxs.length) 0))
  else []

/-- All same-lane adjacent pairs of one engine step. -/
def allPairs (s : Setting) (cars : List Car) : List (ℕ × ℕ) :=
  (List.range s.rLanes.length).flatMap (lanePairs cars)

/-- The candidate upper bounds for the step's tick: the follow times of
pairs whose follower proposes `Straight`, except those at or below the
minimal threshold (those are resolved by stopping the follower instead). -/
def tickCandidates (s : Setting) (cars : List Car) : List ℚ :=
  (allPairs s cars).filterMap (fun q =>
    let f := gd cars q.1
    if f.action = Action.Straight then
      let t := followTime s f (gd cars q.2)
      if t ≤ MIN_UPDATE_TICK then none else some t
    else none)

/-- Whether the car at index `i` is, in some pair, a `Straight` follower
whose follow time is at or below the minimal threshold (and hence is
forced to `Stop`). -/
def stopTriggered (s : Setting) (cars : List Car) (i : ℕ) : Bool :=
  (allPairs s cars).any (fun q =>
    q.1 == i && (gd cars i).action == Action.Straight &&
      decide (followTime s (gd cars i) (gd cars q.2) ≤ MIN_UPDATE_TICK))

/-! ### Concrete instances used by counterexamples and witnesses -/

/-- A one-lane setting with the default tick. -/
def unitSetting : Setting :=
  { nInter := 2, rLanes := [1], tick := 1 / 10,
    switchPolicy := SwitchPolicy.StraightFirst }

/-- A car sitting exactly at its destination (finished at construction). -/
def carDone : Car :=
  { id := 0, pos := ⟨1, 0⟩, vel := 1, lane := 0, dst := ⟨1, 0⟩,
    action := Action.Straight }

/-- A scenario whose only car is already finished at construction. -/
def simDone : SimState :=
  { t := 0, setting := unitSetting, cars := [carDone], finishedCars := [] }

/-- A single unfinished car cruising on lane 0. -/
def carCruise : Car :=
  { id := 0, pos := ⟨1, 0⟩, vel := 1, lane := 0, dst := ⟨1, 3⟩,
    action := Action.Straight }

/-- A scenario with the single cruising car. -/
def simCruise : SimState :=
  { t := 0, setting := unitSetting, cars := [carCruise], finishedCars := [] }

/-- A second car on lane 0, angularly `1/20` ahead of `carCruise`: close
enough to constrain the tick (`1/20 < 1/10`) but above the minimal
threshold (`1/20 > 1/100`). -/
def carAhead : Car :=
  { id := 1, pos := ⟨1, 1 / 20⟩, vel := 1, lane := 0, dst := ⟨1, 3⟩,
    action := Action.Straight }

/-- Two-lane setting for the switch-collision evaluations (claim C2). -/
def setTwoLane : Setting :=
  { nInter := 2, rLanes := [1, 1 / 2], tick := 1 / 5,
    switchPolicy := SwitchPolicy.StraightFirst }

/-- A car on lane 1 switching outward whose target angle `1/10` lies
strictly inside the arc `[0, 1/5]` swept by `carNbr` during a tick of
`1/5`. -/
def carSwitchInside : Car :=
  { id := 0, pos := ⟨3 / 4, 1 / 10⟩, vel := 1, lane := 1, dst := ⟨1, 2⟩,
    action := Action.Switch (-1) }

/-- The same switching car but at angle `3/10`, beyond the end of the
swept arc `[0, 1/5]`. -/
def carSwitchBeyond : Car :=
  { id := 0, pos := ⟨3 / 4, 3 / 10⟩, vel := 1, lane := 1, dst := ⟨1, 2⟩,
    action := Action.Switch (-1) }

/-- The straight-moving neighbor on lane 0 at angle 0 with speed 1:
during a tick of `1/5` it sweeps the arc `[0, 1/5]` of lane radius 1. -/
def carNbr : Car :=
  { id := 1, pos := ⟨1, 0⟩, vel := 1, lane := 0, dst := ⟨1, 2⟩,
    action := Action.Straight }

/-- Setting for the greedy-driver evaluation (claim C6): two lanes of
radii 3 and 1. -/
def setGreedy : Setting :=
  { nInter := 2, rLanes := [3, 1], tick := 1 / 10,
    switchPolicy := SwitchPolicy.StraightFirst }

/-- Unfinished car on lane 0 with remaining angle `6/5` to its
destination.  Stay-straight cost: `3 · 6/5 = 18/5`.  Detour cost by the
claim's formula: `2·(3−1) + 1·6/5 + 0 = 26/5` (so: stay straight); by
src/src/lib.rs:50: `2·1 + 1·6/5 + 0 = 16/5` (so: switch inward). -/
def carGreedy : Car :=
  { id := 0, pos := ⟨3, 0⟩, vel := 1, lane := 0, dst := ⟨3, 6 / 5⟩,
    action := Action.Straight }

/-- Scenario input with lane radii `[1, 1]` — not strictly decreasing,
all other required fields present and parseable. -/
def rawEqualLanes : RawScenario :=
  { rLanes := [some 1, some 1], nInter := some 2, tick := some (1 / 10),
    switchPolicyKey := none, init := some [] }

/-- The settings object that `settingNew` builds from `rawEqualLanes`. -/
def settingEqualLanes : Setting :=
  { nInter := 2, rLanes := [1, 1], tick := 1 / 10,
    switchPolicy := SwitchPolicy.StraightFirst }

/-- Scenario input missing both `r_lanes` and `init`. -/
def rawEmpty : RawScenario :=
  { rLanes := [], nInter := some 2, tick := some (1 / 10),
    switchPolicyKey := none, init := none }

/-- Two cars mid-switch inward on lane 0, angularly aligned, radially
`1/8` apart, closing at relative speed 1: they meet after `1/8`. -/
def carSideA : Car :=
  { id := 0, pos := ⟨1, 0⟩, vel := 2, lane := 0, dst := ⟨1, 2⟩,
    action := Action.Switch 1 }

def carSideB : Car :=
  { id := 1, pos := ⟨7 / 8, 0⟩, vel := 1, lane := 0, dst := ⟨1, 2⟩,
    action := Action.Switch 1 }

/-- A car proposing `Straight` while radially off its lane (mid-switch):
lane 0 has radius 1 but the car sits at radius `3/4`. -/
def carAdrift : Car :=
  { id := 0, pos := ⟨3 / 4, 0⟩, vel := 1, lane := 0, dst := ⟨1, 2⟩,
    action := Action.Straight }

/-- A car with a pending inward switch, halfway between lanes 0 and 1 of
`setTwoLane`, with a principal angle. -/
def carMidSwitch : Car :=
  { id := 0, pos := ⟨3 / 4, 1 / 2⟩, vel := 1, lane := 0, dst := ⟨1, 2⟩,
    action := Action.Switch 1 }

/-! ## Theorems -/

/-! ### Evaluation helpers (`f32` rationals do not reduce in the kernel,
so concrete evaluations go through `simp` and `norm_num`) -/

theorem piq_pos : 0 < piq := by norm_num [piq]

/-- A principal angle is its own wrap. -/
theorem wrapPrincipal_eq_self {x : ℚ} (h1 : -piq < x) (h2 : x ≤ piq) :
    wrapPrincipal x = x := by
  have h2pi : (0 : ℚ) < 2 * piq := by linarith [piq_pos]
  have hceil : ⌈(x - piq) / (2 * piq)⌉ = 0 := by
    rw [Int.ceil_eq_zero_iff, Set.mem_Ioc]
    constructor
    · rw [lt_div_iff₀ h2pi]
      linarith
    · apply div_nonpos_of_nonpos_of_nonneg <;> linarith
  unfold wrapPrincipal twoPiq
  rw [hceil]
  ring

theorem min_lt_fMAX : MIN_UPDATE_TICK < fMAX := by
  norm_num [MIN_UPDATE_TICK, fMAX]

/-! ### Structural lemmas about the shared car list -/

theorem gd_set_ne (cars : List Car) {i j : ℕ} (c : Car) (h : j ≠ i) :
    gd (cars.set j c) i = gd cars i := by
  unfold gd
  rw [List.getD_eq_getElem?_getD, List.getD_eq_getElem?_getD,
    List.getElem?_set_ne h]

theorem gd_set_self (cars : List Car) {i : ℕ} (c : Car) (h : i < cars.length) :
    gd (cars.set i c) i = c := by
  unfold gd
  rw [List.getD_eq_getElem?_getD, List.getElem?_set_self h]
  rfl

theorem mem_laneIdx {cars : List Car} {l i : ℕ} :
    i ∈ laneIdx cars l ↔ i < cars.length ∧ (gd cars i).lane = l := by
  unfold laneIdx
  simp [List.mem_filter, List.mem_range]

theorem laneIdx_nodup (cars : List Car) (l : ℕ) : (laneIdx cars l).Nodup :=
  List.Nodup.filter _ (List.nodup_range _)

theorem getD_mem_of_lt {idxs : List ℕ} {k : ℕ} (h : k < idxs.length) :
    idxs.getD k 0 ∈ idxs := by
  rw [List.getD_eq_getElem _ _ h]
  exact List.getElem_mem h

theorem getD_nodup_ne {idxs : List ℕ} (hnd : idxs.Nodup) {k k' : ℕ}
    (hk : k < idxs.length) (hk' : k' < idxs.length) (hne : k ≠ k') :
    idxs.getD k 0 ≠ idxs.getD k' 0 := by
  rw [List.getD_eq_getElem _ _ hk, List.getD_eq_getElem _ _ hk']
  intro he
  exact hne ((List.Nodup.getElem_inj_iff hnd).mp he)

/-- `straight_collision` reads only the follower's action, position,
speed and lane, and the leader's position. -/
theorem straightCollision_congr (s : Setting) {f1 f2 p1 p2 : Car}
    (hact : f1.action = f2.action) (hpos : f1.pos = f2.pos)
    (hvel : f1.vel = f2.vel) (hlane : f1.lane = f2.lane)
    (hp : p1.pos = p2.pos) :
    straightCollision s f1 p1 = straightCollision s f2 p2 := by
  unfold straightCollision
  rw [hact]
  cases f2.action <;> simp [Polar.argDiv, hpos, hvel, hlane, hp]

/-! ### Characterization of the straight-collision pass -/

/-- The inner loop of the straight pass over one lane, fully
characterized against the entry snapshot `cars0`: processing the pair
positions `ks` stops exactly the triggered followers and folds the
minimum over the candidate times, everything evaluated on `cars0`. -/
theorem straightPassLane_fold (s : Setting) (cars0 : List Car) (idxs : List ℕ)
    (hin : ∀ i ∈ idxs, i < cars0.length) (hnd : idxs.Nodup) :
    ∀ ks : List ℕ, ∀ cars1 : List Car, ∀ tick : ℚ,
      (∀ k ∈ ks, k < idxs.length) →
      cars1.length = cars0.length →
      (∀ i, gd cars1 i = { gd cars0 i with action := (gd cars1 i).action }) →
      (∀ k ∈ ks, (gd cars1 (idxs.getD k 0)).action =
        (gd cars0 (idxs.getD k 0)).action) →
      ks.Nodup →
      (ks.foldl (stopRuleStep s idxs) (cars1, tick)).2 =
        ks.foldl (fun a k =>
          if 1 < idxs.length then
            if straightCollision s (gd cars0 (idxs.getD k 0))
                (gd cars0 (idxs.getD ((k + 1) % idxs.length) 0)) ≤
                MIN_UPDATE_TICK then
              (if fMAX < a then fMAX else a)
            else
              (if straightCollision s (gd cars0 (idxs.getD k 0))
                  (gd cars0 (idxs.getD ((k + 1) % idxs.length) 0)) < a then
                straightCollision s (gd cars0 (idxs.getD k 0))
                  (gd cars0 (idxs.getD ((k + 1) % idxs.length) 0))
              else a)
          else a) tick ∧
      (ks.foldl (stopRuleStep s idxs) (cars1, tick)).1.length = cars0.length ∧
      ∀ i, gd (ks.foldl (stopRuleStep s idxs) (cars1, tick)).1 i =
        (if ∃ k ∈ ks, idxs.getD k 0 = i ∧ 1 < idxs.length ∧
            straightCollision s (gd cars0 (idxs.getD k 0))
              (gd cars0 (idxs.getD ((k + 1) % idxs.length) 0)) ≤
              MIN_UPDATE_TICK then
          { gd cars0 i with action := Action.Stop }
        else gd cars1 i) := by
  intro ks
  induction ks with
  | nil =>
      intro cars1 tick _ hL _ _ _
      exact ⟨rfl, hL, fun i => by rw [if_neg (by simp)]; rfl⟩
  | cons k ks ih =>
      intro cars1 tick hks hL hAgree hAct hknd
      have hfield : ∀ i, (gd cars1 i).pos = (gd cars0 i).pos ∧
          (gd cars1 i).vel = (gd cars0 i).vel ∧
          (gd cars1 i).lane = (gd cars0 i).lane := by
        intro i
        rw [hAgree i]
        exact ⟨rfl, rfl, rfl⟩
      by_cases h1 : 1 < idxs.length
      · -- the pair at position k is processed
        have hklen : k < idxs.length := hks k (List.mem_cons_self _ _)
        have hfi_lt1 : idxs.getD k 0 < cars1.length := by
          rw [hL]
          exact hin _ (getD_mem_of_lt hklen)
        have ht_eq : straightCollision s (gd cars1 (idxs.getD k 0))
            (gd cars1 (idxs.getD ((k + 1) % idxs.length) 0)) =
            straightCollision s (gd cars0 (idxs.getD k 0))
              (gd cars0 (idxs.getD ((k + 1) % idxs.length) 0)) :=
          straightCollision_congr s (hAct k (List.mem_cons_self _ _))
            (hfield _).1 (hfield _).2.1 (hfield _).2.2
            (hfield _).1
        have hstep : stopRuleStep s idxs (cars1, tick) k =
            (if straightCollision s (gd cars0 (idxs.getD k 0))
                (gd cars0 (idxs.getD ((k + 1) % idxs.length) 0)) ≤
                MIN_UPDATE_TICK then
              (cars1.set (idxs.getD k 0)
                { gd cars1 (idxs.getD k 0) with action := Action.Stop },
               if fMAX < tick then fMAX else tick)
            else
              (cars1,
               if straightCollision s (gd cars0 (idxs.getD k 0))
                  (gd cars0 (idxs.getD ((k + 1) % idxs.length) 0)) < tick then
                straightCollision s (gd cars0 (idxs.getD k 0))
                  (gd cars0 (idxs.getD ((k + 1) % idxs.length) 0))
              else tick)) := by
          unfold stopRuleStep
          rw [if_pos h1]
          simp only []
          rw [ht_eq]
        have hcollapse :
            ({ gd cars1 (idxs.getD k 0) with action := Action.Stop } : Car) =
            { gd cars0 (idxs.getD k 0) with action := Action.Stop } := by
          rw [hAgree (idxs.getD k 0)]
        by_cases hmin : straightCollision s (gd cars0 (idxs.getD k 0))
            (gd cars0 (idxs.getD ((k + 1) % idxs.length) 0)) ≤ MIN_UPDATE_TICK
        · -- follower stopped, tick essentially unchanged
          rw [if_pos hmin] at hstep
          obtain ⟨ht', hl', hact'⟩ := ih
            (cars1.set (idxs.getD k 0)
              { gd cars1 (idxs.getD k 0) with action := Action.Stop })
            (if fMAX < tick then fMAX else tick)
            (fun k' hk' => hks k' (List.mem_cons_of_mem _ hk'))
            (by rw [List.length_set]; exact hL)
            (by
              intro i
              by_cases hi : idxs.getD k 0 = i
              · subst hi
                rw [gd_set_self _ _ hfi_lt1, hcollapse]
              · rw [gd_set_ne _ _ hi]
                exact hAgree i)
            (by
              intro k' hk'
              have hkk' : k ≠ k' := by
                rintro rfl
                exact (List.nodup_cons.mp hknd).1 hk'
              rw [gd_set_ne _ _ (getD_nodup_ne hnd hklen
                (hks k' (List.mem_cons_of_mem _ hk')) hkk')]
              exact hAct k' (List.mem_cons_of_mem _ hk'))
            (List.Nodup.of_cons hknd)
          refine ⟨?_, ?_, ?_⟩
          · simp only [List.foldl_cons]
            rw [hstep, if_pos h1, if_pos hmin]
            exact ht'
          · simp only [List.foldl_cons]
            rw [hstep]
            exact hl'
          · intro i
            simp only [List.foldl_cons]
            rw [hstep, hact' i]
            by_cases hEx : ∃ k' ∈ ks, idxs.getD k' 0 = i ∧ 1 < idxs.length ∧
                straightCollision s (gd cars0 (idxs.getD k' 0))
                  (gd cars0 (idxs.getD ((k' + 1) % idxs.length) 0)) ≤
                  MIN_UPDATE_TICK
            · rw [if_pos hEx, if_pos ?side]
              case side =>
                obtain ⟨k', hk', hp⟩ := hEx
                exact ⟨k', List.mem_cons_of_mem _ hk', hp⟩
            · rw [if_neg hEx]
              by_cases hi : idxs.getD k 0 = i
              · rw [if_pos ⟨k, List.mem_cons_self _ _, hi, h1, hmin⟩]
                subst hi
                rw [gd_set_self _ _ hfi_lt1, hcollapse]
              · rw [gd_set_ne _ _ hi, if_neg ?noTrig]
                case noTrig =>
                  rintro ⟨k', hk', hgi, hgt, hgm⟩
                  rcases List.mem_cons.mp hk' with rfl | hk''
                  · exact hi hgi
                  · exact hEx ⟨k', hk'', hgi, hgt, hgm⟩
        · -- time above threshold: candidate for the tick
          rw [if_neg hmin] at hstep
          obtain ⟨ht', hl', hact'⟩ := ih cars1
            (if straightCollision s (gd cars0 (idxs.getD k 0))
                (gd cars0 (idxs.getD ((k + 1) % idxs.length) 0)) < tick then
              straightCollision s (gd cars0 (idxs.getD k 0))
                (gd cars0 (idxs.getD ((k + 1) % idxs.length) 0))
            else tick)
            (fun k' hk' => hks k' (List.mem_cons_of_mem _ hk')) hL hAgree
            (fun k' hk' => hAct k' (List.mem_cons_of_mem _ hk'))
            (List.Nodup.of_cons hknd)
          refine ⟨?_, ?_, ?_⟩
          · simp only [List.foldl_cons]
            rw [hstep, if_pos h1, if_neg hmin]
            exact ht'
          · simp only [List.foldl_cons]
            rw [hstep]
            exact hl'
          · intro i
            simp only [List.foldl_cons]
            rw [hstep, hact' i]
            by_cases hEx : ∃ k' ∈ ks, idxs.getD k' 0 = i ∧ 1 < idxs.length ∧
                straightCollision s (gd cars0 (idxs.getD k' 0))
                  (gd cars0 (idxs.getD ((k' + 1) % idxs.length) 0)) ≤
                  MIN_UPDATE_TICK
            · rw [if_pos hEx, if_pos ?side2]
              case side2 =>
                obtain ⟨k', hk', hp⟩ := hEx
                exact ⟨k', List.mem_cons_of_mem _ hk', hp⟩
            · rw [if_neg hEx, if_neg ?noTrig2]
              case noTrig2 =>
                rintro ⟨k', hk', hgi, hgt, hgm⟩
                rcases List.mem_cons.mp hk' with rfl | hk''
                · exact hmin hgm
                · exact hEx ⟨k', hk'', hgi, hgt, hgm⟩
      · -- a lane with at most one car has no pairs
        have hstep : stopRuleStep s idxs (cars1, tick) k = (cars1, tick) := by
          unfold stopRuleStep
          rw [if_neg h1]
        obtain ⟨ht', hl', hact'⟩ := ih cars1 tick
          (fun k' hk' => hks k' (List.mem_cons_of_mem _ hk')) hL hAgree
          (fun k' hk' => hAct k' (List.mem_cons_of_mem _ hk'))
          (List.Nodup.of_cons hknd)
        refine ⟨?_, ?_, ?_⟩
        · simp only [List.foldl_cons]
          rw [hstep, if_neg h1]
          exact ht'
        · simp only [List.foldl_cons]
          rw [hstep]
          exact hl'
        · intro i
          simp only [List.foldl_cons]
          rw [hstep, hact' i]
          by_cases hEx : ∃ k' ∈ ks, idxs.getD k' 0 = i ∧ 1 < idxs.length ∧
              straightCollision s (gd cars0 (idxs.getD k' 0))
                (gd cars0 (idxs.getD ((k' + 1) % idxs.length) 0)) ≤
                MIN_UPDATE_TICK
          · rw [if_pos hEx, if_pos ?side3]
            case side3 =>
              obtain ⟨k', hk', hp⟩ := hEx
              exact ⟨k', List.mem_cons_of_mem _ hk', hp⟩
          · rw [if_neg hEx, if_neg ?noTrig3]
            case noTrig3 =>
              rintro ⟨k', hk', hgi, hgt, hgm⟩
              rcases List.mem_cons.mp hk' with rfl | hk''
              · exact h1 hgt
              · exact hEx ⟨k', hk'', hgi, hgt, hgm⟩

/-- For a `Straight` follower, `straight_collision` computes exactly the
claim's formula. -/
theorem straightCollision_of_straight (s : Setting) {f : Car} (p : Car)
    (h : f.action = Action.Straight) :
    straightCollision s f p = followTime s f p := by
  unfold straightCollision followTime Polar.argDiv
  rw [h]

/-- For a non-`Straight` follower, `straight_collision` returns `f32::MAX`. -/
theorem straightCollision_of_not_straight (s : Setting) {f : Car} (p : Car)
    (h : f.action ≠ Action.Straight) :
    straightCollision s f p = fMAX := by
  unfold straightCollision
  rcases hA : f.action with d | _ | _
  · rfl
  · exact absurd hA h
  · rfl

/-- The time bound read on a pair constrains the tick iff the follower is
`Straight` and the follow time is above the minimal threshold. -/
theorem straightCollision_le_min_iff (s : Setting) (f p : Car) :
    (straightCollision s f p ≤ MIN_UPDATE_TICK ↔
      f.action = Action.Straight ∧ followTime s f p ≤ MIN_UPDATE_TICK) := by
  by_cases h : f.action = Action.Straight
  · rw [straightCollision_of_straight s p h]
    exact ⟨fun hle => ⟨h, hle⟩, fun hc => hc.2⟩
  · rw [straightCollision_of_not_straight s p h]
    constructor
    · intro hle
      exact absurd hle (not_le.mpr min_lt_fMAX)
    · rintro ⟨hs, -⟩
      exact absurd hs h

/-- The spec-side fold of one lane's pair times is the fold of `min` over
that lane's tick candidates, for any accumulator not exceeding
`f32::MAX`; the result never exceeds the accumulator. -/
theorem laneFold_min (s : Setting) (cars0 : List Car) (idxs : List ℕ) :
    ∀ ks : List ℕ, ∀ acc : ℚ, acc ≤ fMAX →
      (ks.foldl (fun a k =>
          if 1 < idxs.length then
            if straightCollision s (gd cars0 (idxs.getD k 0))
                (gd cars0 (idxs.getD ((k + 1) % idxs.length) 0)) ≤
                MIN_UPDATE_TICK then
              (if fMAX < a then fMAX else a)
            else
              (if straightCollision s (gd cars0 (idxs.getD k 0))
                  (gd cars0 (idxs.getD ((k + 1) % idxs.length) 0)) < a then
                straightCollision s (gd cars0 (idxs.getD k 0))
                  (gd cars0 (idxs.getD ((k + 1) % idxs.length) 0))
              else a)
          else a) acc) =
        ((ks.filterMap (fun k =>
          if 1 < idxs.length then
            (if (gd cars0 (idxs.getD k 0)).action = Action.Straight then
              (if followTime s (gd cars0 (idxs.getD k 0))
                  (gd cars0 (idxs.getD ((k + 1) % idxs.length) 0)) ≤
                  MIN_UPDATE_TICK then none
              else some (followTime s (gd cars0 (idxs.getD k 0))
                  (gd cars0 (idxs.getD ((k + 1) % idxs.length) 0))))
            else none)
          else none)).foldl min acc) ∧
      (ks.foldl (fun a k =>
          if 1 < idxs.length then
            if straightCollision s (gd cars0 (idxs.getD k 0))
                (gd cars0 (idxs.getD ((k + 1) % idxs.length) 0)) ≤
                MIN_UPDATE_TICK then
              (if fMAX < a then fMAX else a)
            else
              (if straightCollision s (gd cars0 (idxs.getD k 0))
                  (gd cars0 (idxs.getD ((k + 1) % idxs.length) 0)) < a then
                straightCollision s (gd cars0 (idxs.getD k 0))
                  (gd cars0 (idxs.getD ((k + 1) % idxs.length) 0))
              else a)
          else a) acc) ≤ acc := by
  intro ks
  induction ks with
  | nil => exact fun acc _ => ⟨rfl, le_refl acc⟩
  | cons k ks ih =>
      intro acc hacc
      simp only [List.foldl_cons, List.filterMap_cons]
      by_cases h1 : 1 < idxs.length
      · by_cases hmin : straightCollision s (gd cars0 (idxs.getD k 0))
            (gd cars0 (idxs.getD ((k + 1) % idxs.length) 0)) ≤ MIN_UPDATE_TICK
        · -- resolved by stopping: contributes no candidate, keeps acc
          obtain ⟨hstr, hft⟩ := (straightCollision_le_min_iff s _ _).mp hmin
          have hkeep : (if fMAX < acc then fMAX else acc) = acc :=
            if_neg (not_lt.mpr hacc)
          rw [if_pos h1, if_pos hmin, hkeep, if_pos h1, if_pos hstr, if_pos hft]
          exact ih acc hacc
        · rw [if_pos h1, if_neg hmin]
          by_cases hstr : (gd cars0 (idxs.getD k 0)).action = Action.Straight
          · -- a genuine candidate: one step of `min`
            have hfeq : straightCollision s (gd cars0 (idxs.getD k 0))
                (gd cars0 (idxs.getD ((k + 1) % idxs.length) 0)) =
                followTime s (gd cars0 (idxs.getD k 0))
                  (gd cars0 (idxs.getD ((k + 1) % idxs.length) 0)) :=
              straightCollision_of_straight s _ hstr
            have hft : ¬ followTime s (gd cars0 (idxs.getD k 0))
                (gd cars0 (idxs.getD ((k + 1) % idxs.length) 0)) ≤
                MIN_UPDATE_TICK := by
              rw [← hfeq]
              exact hmin
            rw [if_pos h1, if_pos hstr, if_neg hft]
            have hmineq : (if straightCollision s (gd cars0 (idxs.getD k 0))
                (gd cars0 (idxs.getD ((k + 1) % idxs.length) 0)) < acc then
                  straightCollision s (gd cars0 (idxs.getD k 0))
                    (gd cars0 (idxs.getD ((k + 1) % idxs.length) 0))
                else acc) =
                min acc (followTime s (gd cars0 (idxs.getD k 0))
                  (gd cars0 (idxs.getD ((k + 1) % idxs.length) 0))) := by
              rw [hfeq]
              rcases lt_or_ge (followTime s (gd cars0 (idxs.getD k 0))
                (gd cars0 (idxs.getD ((k + 1) % idxs.length) 0))) acc with hlt | hge
              · rw [if_pos hlt, min_eq_right (le_of_lt hlt)]
              · rw [if_neg (not_lt.mpr hge), min_eq_left hge]
            rw [hmineq]
            have hstep_le : min acc (followTime s (gd cars0 (idxs.getD k 0))
                (gd cars0 (idxs.getD ((k + 1) % idxs.length) 0))) ≤ acc :=
              min_le_left _ _
            obtain ⟨ihe, ihle⟩ := ih _ (le_trans hstep_le hacc)
            exact ⟨ihe, le_trans ihle hstep_le⟩
          · -- follower not straight: time is f32::MAX, never a candidate
            have hfeq : straightCollision s (gd cars0 (idxs.getD k 0))
                (gd cars0 (idxs.getD ((k + 1) % idxs.length) 0)) = fMAX :=
              straightCollision_of_not_straight s _ hstr
            have hnl : ¬ straightCollision s (gd cars0 (idxs.getD k 0))
                (gd cars0 (idxs.getD ((k + 1) % idxs.length) 0)) < acc := by
              rw [hfeq]
              exact not_lt.mpr hacc
            rw [if_neg hnl, if_pos h1, if_neg hstr]
            exact ih acc hacc
      · rw [if_neg h1, if_neg h1]
        exact ih acc hacc

/-- The candidate sublist contributed by one lane, in pair form. -/
theorem lanePairs_filterMap (s : Setting) (cars0 : List Car) (l : ℕ) :
    ((lanePairs cars0 l).filterMap (fun q =>
      if (gd cars0 q.1).action = Action.Straight then
        (if followTime s (gd cars0 q.1) (gd cars0 q.2) ≤ MIN_UPDATE_TICK then
          none
        else some (followTime s (gd cars0 q.1) (gd cars0 q.2)))
      else none)) =
    ((List.range (laneIdx cars0 l).length).filterMap (fun k =>
      if 1 < (laneIdx cars0 l).length then
        (if (gd cars0 ((laneIdx cars0 l).getD k 0)).action = Action.Straight then
          (if followTime s (gd cars0 ((laneIdx cars0 l).getD k 0))
              (gd cars0 ((laneIdx cars0 l).getD
                ((k + 1) % (laneIdx cars0 l).length) 0)) ≤
              MIN_UPDATE_TICK then none
          else some (followTime s (gd cars0 ((laneIdx cars0 l).getD k 0))
              (gd cars0 ((laneIdx cars0 l).getD
                ((k + 1) % (laneIdx cars0 l).length) 0))))
        else none)
      else none)) := by
  unfold lanePairs
  by_cases h1 : 1 < (laneIdx cars0 l).length
  · rw [if_pos h1, List.filterMap_map]
    apply List.filterMap_congr
    intro k _
    simp only [Function.comp_apply, if_pos h1]
  · rw [if_neg h1, List.filterMap_nil]
    symm
    rw [List.filterMap_eq_nil_iff]
    intro k _
    rw [if_neg h1]

/-- A pair's follower index belongs to the lane's index list. -/
theorem lanePairs_fst_mem {cars0 : List Car} {l : ℕ} {q : ℕ × ℕ}
    (hq : q ∈ lanePairs cars0 l) : q.1 ∈ laneIdx cars0 l := by
  unfold lanePairs at hq
  by_cases h1 : 1 < (laneIdx cars0 l).length
  · rw [if_pos h1] at hq
    obtain ⟨k, hk, rfl⟩ := List.mem_map.mp hq
    exact getD_mem_of_lt (List.mem_range.mp hk)
  · rw [if_neg h1] at hq
    cases hq

/-- The per-position trigger of the lane fold, in pair form. -/
theorem lane_trigger_iff (s : Setting) (cars0 : List Car) (l i : ℕ) :
    (∃ k ∈ List.range (laneIdx cars0 l).length,
      (laneIdx cars0 l).getD k 0 = i ∧ 1 < (laneIdx cars0 l).length ∧
      straightCollision s (gd cars0 ((laneIdx cars0 l).getD k 0))
        (gd cars0 ((laneIdx cars0 l).getD
          ((k + 1) % (laneIdx cars0 l).length) 0)) ≤ MIN_UPDATE_TICK) ↔
    (∃ q ∈ lanePairs cars0 l, q.1 = i ∧
      straightCollision s (gd cars0 i) (gd cars0 q.2) ≤ MIN_UPDATE_TICK) := by
  constructor
  · rintro ⟨k, hk, rfl, h1, hm⟩
    refine ⟨((laneIdx cars0 l).getD k 0,
      (laneIdx cars0 l).getD ((k + 1) % (laneIdx cars0 l).length) 0), ?_, rfl, hm⟩
    unfold lanePairs
    rw [if_pos h1]
    exact List.mem_map.mpr ⟨k, hk, rfl⟩
  · rintro ⟨q, hq, rfl, hm⟩
    have h1 : 1 < (laneIdx cars0 l).length := by
      by_contra h1
      unfold lanePairs at hq
      rw [if_neg h1] at hq
      cases hq
    unfold lanePairs at hq
    rw [if_pos h1] at hq
    obtain ⟨k, hk, he⟩ := List.mem_map.mp hq
    refine ⟨k, hk, ?_, h1, ?_⟩
    · rw [show (laneIdx cars0 l).getD k 0 = q.1 from congrArg Prod.fst he]
    · rw [show (laneIdx cars0 l).getD k 0 = q.1 from congrArg Prod.fst he,
        show (laneIdx cars0 l).getD ((k + 1) % (laneIdx cars0 l).length) 0 =
          q.2 from congrArg Prod.snd he]
      exact hm

/-- The whole straight pass (all lanes), characterized against the entry
snapshot `cars0`. -/
theorem straightPass_lanes_fold (s : Setting) (cars0 : List Car) :
    ∀ ls : List ℕ, ∀ cars1 : List Car, ∀ tick : ℚ,
      ls.Nodup →
      cars1.length = cars0.length →
      (∀ i, gd cars1 i = { gd cars0 i with action := (gd cars1 i).action }) →
      (∀ l ∈ ls, ∀ i ∈ laneIdx cars0 l,
        (gd cars1 i).action = (gd cars0 i).action) →
      tick ≤ fMAX →
      (ls.foldl (fun st l => straightPassLane s (laneIdx cars0 l) st)
          (cars1, tick)).2 =
        (ls.flatMap (fun l => (lanePairs cars0 l).filterMap (fun q =>
          if (gd cars0 q.1).action = Action.Straight then
            (if followTime s (gd cars0 q.1) (gd cars0 q.2) ≤
                MIN_UPDATE_TICK then none
            else some (followTime s (gd cars0 q.1) (gd cars0 q.2)))
          else none))).foldl min tick ∧
      (ls.foldl (fun st l => straightPassLane s (laneIdx cars0 l) st)
          (cars1, tick)).2 ≤ tick ∧
      (ls.foldl (fun st l => straightPassLane s (laneIdx cars0 l) st)
          (cars1, tick)).1.length = cars0.length ∧
      ∀ i, gd (ls.foldl (fun st l => straightPassLane s (laneIdx cars0 l) st)
          (cars1, tick)).1 i =
        (if ∃ l ∈ ls, ∃ q ∈ lanePairs cars0 l, q.1 = i ∧
            straightCollision s (gd cars0 i) (gd cars0 q.2) ≤
              MIN_UPDATE_TICK then
          { gd cars0 i with action := Action.Stop }
        else gd cars1 i) := by
  intro ls
  induction ls with
  | nil =>
      intro cars1 tick _ hL _ _ _
      exact ⟨rfl, le_refl tick, hL, fun i => by rw [if_neg (by simp)]; rfl⟩
  | cons l ls ih =>
      intro cars1 tick hnd hL hAgree hAct htick
      -- characterize the head lane
      obtain ⟨hT, hL', hA'⟩ := straightPassLane_fold s cars0 (laneIdx cars0 l)
        (fun i hi => (mem_laneIdx.mp hi).1) (laneIdx_nodup cars0 l)
        (List.range (laneIdx cars0 l).length) cars1 tick
        (fun k hk => List.mem_range.mp hk) hL hAgree
        (fun k hk => hAct l (List.mem_cons_self _ _) _
          (getD_mem_of_lt (List.mem_range.mp hk)))
        (List.nodup_range _)
      obtain ⟨hTmin, hTle⟩ := laneFold_min s cars0 (laneIdx cars0 l)
        (List.range (laneIdx cars0 l).length) tick htick
      have hT2 : (straightPassLane s (laneIdx cars0 l) (cars1, tick)).2 =
          ((lanePairs cars0 l).filterMap (fun q =>
            if (gd cars0 q.1).action = Action.Straight then
              (if followTime s (gd cars0 q.1) (gd cars0 q.2) ≤
                  MIN_UPDATE_TICK then none
              else some (followTime s (gd cars0 q.1) (gd cars0 q.2)))
            else none)).foldl min tick := by
        unfold straightPassLane
        rw [hT, hTmin, lanePairs_filterMap]
      have hT2le : (straightPassLane s (laneIdx cars0 l) (cars1, tick)).2 ≤
          tick := by
        unfold straightPassLane
        rw [hT]
        exact hTle
      have hA'' : ∀ i, gd (straightPassLane s (laneIdx cars0 l)
          (cars1, tick)).1 i =
          (if ∃ q ∈ lanePairs cars0 l, q.1 = i ∧
              straightCollision s (gd cars0 i) (gd cars0 q.2) ≤
                MIN_UPDATE_TICK then
            { gd cars0 i with action := Action.Stop }
          else gd cars1 i) := by
        intro i
        unfold straightPassLane
        rw [hA' i]
        exact if_congr (lane_trigger_iff s cars0 l i) rfl rfl
      have hL'' : (straightPassLane s (laneIdx cars0 l) (cars1, tick)).1.length =
          cars0.length := by
        unfold straightPassLane
        exact hL'
      -- apply the induction hypothesis to the state after the head lane
      obtain ⟨ihT, ihTle, ihL, ihA⟩ := ih
        (straightPassLane s (laneIdx cars0 l) (cars1, tick)).1
        (straightPassLane s (laneIdx cars0 l) (cars1, tick)).2
        (List.Nodup.of_cons hnd) hL''
        (by
          intro i
          rw [hA'' i]
          by_cases hq : ∃ q ∈ lanePairs cars0 l, q.1 = i ∧
              straightCollision s (gd cars0 i) (gd cars0 q.2) ≤
                MIN_UPDATE_TICK
          · rw [if_pos hq]
          · rw [if_neg hq]
            exact hAgree i)
        (by
          intro l' hl' i hi
          rw [hA'' i, if_neg ?_]
          · exact hAct l' (List.mem_cons_of_mem _ hl') i hi
          · rintro ⟨q, hq, rfl, -⟩
            have h1 : (gd cars0 q.1).lane = l :=
              (mem_laneIdx.mp (lanePairs_fst_mem hq)).2
            have h2 : (gd cars0 q.1).lane = l' := (mem_laneIdx.mp hi).2
            have : l ≠ l' := by
              intro he
              exact (List.nodup_cons.mp hnd).1 (he ▸ hl')
            exact this (h1 ▸ h2))
        (le_trans hT2le htick)
      refine ⟨?_, ?_, ?_, ?_⟩
      · simp only [List.foldl_cons, List.flatMap_cons]
        rw [ihT, hT2, List.foldl_append]
      · simp only [List.foldl_cons]
        exact le_trans ihTle hT2le
      · simp only [List.foldl_cons]
        exact ihL
      · intro i
        simp only [List.foldl_cons]
        rw [ihA i]
        by_cases hEx : ∃ l' ∈ ls, ∃ q ∈ lanePairs cars0 l', q.1 = i ∧
            straightCollision s (gd cars0 i) (gd cars0 q.2) ≤ MIN_UPDATE_TICK
        · rw [if_pos hEx, if_pos ?side]
          case side =>
            obtain ⟨l', hl', hp⟩ := hEx
            exact ⟨l', List.mem_cons_of_mem _ hl', hp⟩
        · rw [if_neg hEx, hA'' i]
          by_cases hq : ∃ q ∈ lanePairs cars0 l, q.1 = i ∧
              straightCollision s (gd cars0 i) (gd cars0 q.2) ≤
                MIN_UPDATE_TICK
          · rw [if_pos hq, if_pos ⟨l, List.mem_cons_self _ _, hq⟩]
          · rw [if_neg hq, if_neg ?noTrig]
            case noTrig =>
              rintro ⟨l', hl', hp⟩
              rcases List.mem_cons.mp hl' with rfl | hl''
              · exact hq hp
              · exact hEx ⟨l', hl'', hp⟩

/-- The claim-side candidate list, split by lane. -/
theorem tickCandidates_eq (s : Setting) (cars : List Car) :
    tickCandidates s cars =
    (List.range s.rLanes.length).flatMap (fun l =>
      (lanePairs cars l).filterMap (fun q =>
        if (gd cars q.1).action = Action.Straight then
          (if followTime s (gd cars q.1) (gd cars q.2) ≤ MIN_UPDATE_TICK then
            none
          else some (followTime s (gd cars q.1) (gd cars q.2)))
        else none)) := by
  unfold tickCandidates allPairs
  rw [List.filterMap_flatMap]

/-- The claim-side stop condition, split by lane. -/
theorem stopTriggered_iff (s : Setting) (cars : List Car) (i : ℕ) :
    stopTriggered s cars i = true ↔
    ∃ l ∈ List.range s.rLanes.length, ∃ q ∈ lanePairs cars l, q.1 = i ∧
      straightCollision s (gd cars i) (gd cars q.2) ≤ MIN_UPDATE_TICK := by
  unfold stopTriggered allPairs
  rw [List.any_eq_true]
  constructor
  · rintro ⟨q, hq, hbool⟩
    obtain ⟨l, hl, hql⟩ := List.mem_flatMap.mp hq
    simp only [Bool.and_eq_true, beq_iff_eq, decide_eq_true_eq] at hbool
    obtain ⟨⟨hqi, hstr⟩, hft⟩ := hbool
    refine ⟨l, hl, q, hql, hqi, ?_⟩
    rw [← hqi] at hstr hft ⊢
    rw [(straightCollision_le_min_iff s _ _)]
    exact ⟨hstr, hft⟩
  · rintro ⟨l, hl, q, hql, hqi, hm⟩
    refine ⟨q, List.mem_flatMap.mpr ⟨l, hl, hql⟩, ?_⟩
    obtain ⟨hstr, hft⟩ := (straightCollision_le_min_iff s _ _).mp hm
    simp only [Bool.and_eq_true, beq_iff_eq, decide_eq_true_eq]
    rw [hqi]
    exact ⟨⟨rfl, hstr⟩, hft⟩

/-- Claim C1: in every engine step, each angularly adjacent
(follower, leader) pair of the same lane (a ring via wrap-around) with a
`Straight` follower is timed by (unwrapped angular gap) × (lane radius) /
(follower speed); a time at or below the minimal threshold forces that
follower to `Stop` and does not constrain the tick; the step's tick is
the minimum of the configured ceiling and all remaining candidate times. -/
theorem c1_straight_pass (s : Setting) (cars : List Car) (tick0 : ℚ)
    (h : tick0 ≤ fMAX) :
    (straightPass s cars tick0).2 = (tickCandidates s cars).foldl min tick0 ∧
    ∀ i, gd (straightPass s cars tick0).1 i =
      (if stopTriggered s cars i = true then
        { gd cars i with action := Action.Stop }
      else gd cars i) := by
  obtain ⟨hT, -, -, hA⟩ := straightPass_lanes_fold s cars
    (List.range s.rLanes.length) cars tick0 (List.nodup_range _) rfl
    (fun i => rfl) (fun l _ i _ => rfl) h
  constructor
  · unfold straightPass
    rw [hT, tickCandidates_eq]
  · intro i
    unfold straightPass
    rw [hA i]
    exact if_congr ((stopTriggered_iff s cars i).symm) rfl rfl

/-- Witness for C1: with two straight cars `1/20` apart on one lane and a
ceiling of `1/10`, the theorem applies; the pair above the threshold
constrains the tick via the candidate fold and the follower at index 0
is left unchanged. -/
theorem c1_straight_pass_witness :
    (straightPass unitSetting [carCruise, carAhead] (1 / 10)).2 =
      (tickCandidates unitSetting [carCruise, carAhead]).foldl min (1 / 10) ∧
    gd (straightPass unitSetting [carCruise, carAhead] (1 / 10)).1 0 =
      gd [carCruise, carAhead] 0 := by
  have h := c1_straight_pass unitSetting [carCruise, carAhead] (1 / 10)
    (by norm_num [fMAX])
  refine ⟨h.1, ?_⟩
  rw [h.2 0, if_neg ?notrig]
  case notrig =>
    norm_num [stopTriggered, allPairs, lanePairs, laneIdx, gd, followTime,
      Polar.argDiv, unwrapTheta, wrapPrincipal_eq_self, piq, twoPiq,
      MIN_UPDATE_TICK, unitSetting, carCruise, carAhead, List.getD_cons_zero,
      List.getD_cons_succ, List.range_succ, decide_eq_true_eq]

/-- Every tick candidate is strictly above the minimal threshold (those
at or below it are resolved by stopping the follower instead). -/
theorem tickCandidates_gt_min (s : Setting) (cars : List Car) :
    ∀ t ∈ tickCandidates s cars, MIN_UPDATE_TICK < t := by
  intro t ht
  unfold tickCandidates at ht
  obtain ⟨q, _, hF⟩ := List.mem_filterMap.mp ht
  simp only [] at hF
  by_cases hstr : (gd cars q.1).action = Action.Straight
  · rw [if_pos hstr] at hF
    by_cases hm : followTime s (gd cars q.1) (gd cars q.2) ≤ MIN_UPDATE_TICK
    · rw [if_pos hm] at hF
      cases hF
    · rw [if_neg hm] at hF
      injection hF with hF
      rw [← hF]
      exact not_le.mp hm
  · rw [if_neg hstr] at hF
    cases hF

/-- Folding `min` over positives from a positive start stays positive. -/
theorem foldl_min_pos : ∀ (l : List ℚ) (a : ℚ), 0 < a →
    (∀ x ∈ l, 0 < x) → 0 < l.foldl min a := by
  intro l
  induction l with
  | nil => exact fun a ha _ => ha
  | cons x xs ih =>
      intro a ha hl
      rw [List.foldl_cons]
      exact ih (min a x) (lt_min ha (hl x (List.mem_cons_self _ _)))
        (fun y hy => hl y (List.mem_cons_of_mem _ hy))

/-- The tick chosen by one step lies in `(0, setting.tick]` whenever the
ceiling is positive. -/
theorem stepTick_bounds (sim : SimState) (h1 : 0 < sim.setting.tick)
    (h2 : sim.setting.tick ≤ fMAX) :
    0 < stepTick sim ∧ stepTick sim ≤ sim.setting.tick := by
  obtain ⟨hT, hTle, -, -⟩ := straightPass_lanes_fold sim.setting
    (proposedCars sim) (List.range sim.setting.rLanes.length)
    (proposedCars sim) sim.setting.tick (List.nodup_range _) rfl
    (fun i => rfl) (fun l _ i _ => rfl) h2
  constructor
  · unfold stepTick straightPass
    rw [hT, ← tickCandidates_eq]
    exact foldl_min_pos _ _ h1
      (fun x hx => lt_trans (by norm_num [MIN_UPDATE_TICK])
        (tickCandidates_gt_min _ _ x hx))
  · unfold stepTick straightPass
    exact hTle

/-- Claim C7: every engine step advances the simulated time by exactly
one tick `t` with `0 < t ≤` the configured ceiling (the ceiling shrunk
only by collision constraints, none of which may push it to or below the
minimal threshold), so engine time is strictly increasing across steps. -/
theorem c7_time_advance (sim : SimState) (h1 : 0 < sim.setting.tick)
    (h2 : sim.setting.tick ≤ fMAX) :
    sim.t < (updateCore sim).1.t ∧
    (updateCore sim).1.t ≤ sim.t + sim.setting.tick := by
  obtain ⟨hpos, hle⟩ := stepTick_bounds sim h1 h2
  have ht : (updateCore sim).1.t = sim.t + stepTick sim := rfl
  rw [ht]
  constructor
  · linarith
  · linarith

/-- Witness for C7: the single-car cruise scenario advances time by a
positive amount bounded by the ceiling `1/10`. -/
theorem c7_time_advance_witness :
    simCruise.t < (updateCore simCruise).1.t ∧
    (updateCore simCruise).1.t ≤ simCruise.t + simCruise.setting.tick :=
  c7_time_advance simCruise (by norm_num [simCruise, unitSetting])
    (by norm_num [simCruise, unitSetting, fMAX])

/-- The `has_progress` flag is set iff some surviving car's finalized
action is non-`Stop` or the finished list grew. -/
theorem hasProgress_iff (sim : SimState) :
    (updateCore sim).2.2 = true ↔
    ((∃ c ∈ (updateCore sim).1.cars, c.action ≠ Action.Stop) ∨
      sim.finishedCars.length < (updateCore sim).1.finishedCars.length) := by
  have hcars : (updateCore sim).1.cars =
      (integratedCars sim).filter (fun c => !c.finished) := rfl
  have hfin : (updateCore sim).1.finishedCars =
      sim.finishedCars ++ (integratedCars sim).filter (fun c => c.finished) := rfl
  have hhp : (updateCore sim).2.2 =
      (integratedCars sim).any (fun c => !(c.action == Action.Stop) || c.finished) := rfl
  rw [hhp, List.any_eq_true]
  constructor
  · rintro ⟨c, hcI, hb⟩
    have hgrow : c.finished = true →
        sim.finishedCars.length < (updateCore sim).1.finishedCars.length := by
      intro hf
      rw [hfin, List.length_append]
      have hmem : c ∈ (integratedCars sim).filter (fun c => c.finished) :=
        List.mem_filter.mpr ⟨hcI, hf⟩
      exact Nat.lt_add_of_pos_right
        (List.length_pos.mpr (List.ne_nil_of_mem hmem))
    rw [Bool.or_eq_true] at hb
    rcases hb with hns | hf
    · by_cases hfc : c.finished = true
      · exact Or.inr (hgrow hfc)
      · refine Or.inl ⟨c, ?_, ?_⟩
        · rw [hcars]
          exact List.mem_filter.mpr ⟨hcI, by rw [eq_false_of_ne_true hfc]; rfl⟩
        · intro he
          rw [Bool.not_eq_true', beq_eq_false_iff_ne] at hns
          exact hns he
    · exact Or.inr (hgrow hf)
  · rintro (⟨c, hc, hne⟩ | hlen)
    · rw [hcars] at hc
      obtain ⟨hcI, -⟩ := List.mem_filter.mp hc
      refine ⟨c, hcI, ?_⟩
      rw [Bool.or_eq_true]
      exact Or.inl (by rw [beq_false_of_ne hne]; rfl)
    · rw [hfin, List.length_append] at hlen
      have hpos : 0 < ((integratedCars sim).filter (fun c => c.finished)).length := by
        omega
      obtain ⟨c, hc⟩ := List.length_pos_iff_exists_mem.mp hpos
      obtain ⟨hcI, hf⟩ := List.mem_filter.mp hc
      refine ⟨c, hcI, ?_⟩
      rw [Bool.or_eq_true]
      exact Or.inr hf

/-- Claim C5: whenever the active set is non-empty at the end of a step,
either some car's finalized action was non-`Stop` or some car finished
during the step — and then the step commits — or neither happened and the
step aborts fatally (the `assert!` at src/src/lib.rs:431 models `none`). -/
theorem c5_progress_invariant (sim : SimState)
    (h : (updateCore sim).1.cars ≠ []) :
    ((∃ c ∈ (updateCore sim).1.cars, c.action ≠ Action.Stop) ∨
        sim.finishedCars.length < (updateCore sim).1.finishedCars.length) ∧
      updateE sim = some ((updateCore sim).1, false) ∨
    (¬ ((∃ c ∈ (updateCore sim).1.cars, c.action ≠ Action.Stop) ∨
        sim.finishedCars.length < (updateCore sim).1.finishedCars.length)) ∧
      updateE sim = none := by
  have hafF : (updateCore sim).2.1 = false := by
    have haf : (updateCore sim).2.1 = ((updateCore sim).1.cars).isEmpty := rfl
    rw [haf]
    cases hemp : ((updateCore sim).1.cars).isEmpty
    · rfl
    · exact absurd (List.isEmpty_iff.mp hemp) h
  have hupd : updateE sim =
      (if (updateCore sim).2.2 || (updateCore sim).2.1 then
        some ((updateCore sim).1, (updateCore sim).2.1) else none) := rfl
  cases hp : (updateCore sim).2.2
  · refine Or.inr ⟨fun hpr => ?_, ?_⟩
    · rw [← hasProgress_iff sim] at hpr
      rw [hp] at hpr
      cases hpr
    · rw [hupd, hp, hafF]
      rfl
  · refine Or.inl ⟨(hasProgress_iff sim).mp hp, ?_⟩
    rw [hupd, hp, hafF]
    rfl

/-- Witness for C5: the single cruising car survives its first step with
a non-`Stop` action, so the step commits. -/
theorem c5_progress_invariant_witness :
    ((∃ c ∈ (updateCore simCruise).1.cars, c.action ≠ Action.Stop) ∨
        simCruise.finishedCars.length <
          (updateCore simCruise).1.finishedCars.length) ∧
      updateE simCruise = some ((updateCore simCruise).1, false) ∨
    (¬ ((∃ c ∈ (updateCore simCruise).1.cars, c.action ≠ Action.Stop) ∨
        simCruise.finishedCars.length <
          (updateCore simCruise).1.finishedCars.length)) ∧
      updateE simCruise = none := by
  refine c5_progress_invariant simCruise ?_
  norm_num [updateCore, integratedCars, stepTick, proposedCars, sortCars,
    List.insertionSort, simpleDrive, straightPass, straightPassLane,
    stopRuleStep, laneIdx, switchPass, switchPassCar, gd, Car.updatePhys,
    Car.finished, normSq, cosq, Polar.argDiv, Polar.fromPolar, unwrapTheta,
    wrapPrincipal_eq_self, piq, twoPiq, simCruise, carCruise, unitSetting,
    DIST_ALLOW, THETA_ALLOW, infLt, List.getD_cons_zero, decide_eq_true_eq,
    List.range_succ]

theorem gd_mem {cars : List Car} {i : ℕ} (h : i < cars.length) :
    gd cars i ∈ cars := by
  unfold gd
  rw [List.getD_eq_getElem _ _ h]
  exact List.getElem_mem h

theorem list_eq_of_gd {l1 l2 : List Car} (hL : l1.length = l2.length)
    (h : ∀ i, gd l1 i = gd l2 i) : l1 = l2 := by
  apply List.ext_getElem hL
  intro i h1 h2
  have hi := h i
  unfold gd at hi
  rwa [List.getD_eq_getElem _ _ h1, List.getD_eq_getElem _ _ h2] at hi

/-- With no `Straight` proposals the straight pass is the identity. -/
theorem straightPass_no_straight (s : Setting) (cars : List Car) (tick : ℚ)
    (h : ∀ c ∈ cars, c.action ≠ Action.Straight) (htick : tick ≤ fMAX) :
    straightPass s cars tick = (cars, tick) := by
  obtain ⟨hT, -, hL, hA⟩ := straightPass_lanes_fold s cars
    (List.range s.rLanes.length) cars tick (List.nodup_range _) rfl
    (fun i => rfl) (fun l _ i _ => rfl) htick
  have hcand : tickCandidates s cars = [] := by
    unfold tickCandidates
    rw [List.filterMap_eq_nil_iff]
    intro q hq
    simp only []
    obtain ⟨l, -, hql⟩ := List.mem_flatMap.mp hq
    have h1 := mem_laneIdx.mp (lanePairs_fst_mem hql)
    rw [if_neg (h _ (gd_mem h1.1))]
  apply Prod.ext
  · apply list_eq_of_gd
    · unfold straightPass
      exact hL
    · intro i
      unfold straightPass
      rw [hA i, if_neg ?notrig]
      case notrig =>
        rintro ⟨l, -, q, hq, rfl, hm⟩
        have h1 := mem_laneIdx.mp (lanePairs_fst_mem hq)
        exact h _ (gd_mem h1.1) ((straightCollision_le_min_iff s _ _).mp hm).1
  · unfold straightPass
    rw [hT, ← tickCandidates_eq, hcand]
    rfl

theorem switchPassCar_no_switch (s : Setting) (tick : ℚ)
    (groupsOf : ℕ → List ℕ) (cars : List Car) (ci : ℕ)
    (h : ∀ d, (gd cars ci).action ≠ Action.Switch d) :
    switchPassCar s tick groupsOf cars ci = cars := by
  unfold switchPassCar
  simp only []

/-- With no `Switch` proposals the switch pass is the identity. -/
theorem switchPass_no_switch (s : Setting) (tick : ℚ) (cars : List Car)
    (h : ∀ i, ∀ d, (gd cars i).action ≠ Action.Switch d) :
    switchPass s tick cars = cars := by
  unfold switchPass
  simp only []
  have inner : ∀ L : List ℕ,
      L.foldl (switchPassCar s tick (fun l => laneIdx cars l)) cars = cars := by
    intro L
    induction L with
    | nil => rfl
    | cons x xs ih =>
        rw [List.foldl_cons, switchPassCar_no_switch _ _ _ _ _ (h x)]
        exact ih
  have outer : ∀ Ls : List ℕ,
      Ls.foldl (fun cs l =>
        (laneIdx cars l).foldl (switchPassCar s tick
          (fun l => laneIdx cars l)) cs) cars = cars := by
    intro Ls
    induction Ls with
    | nil => rfl
    | cons x xs ih =>
        rw [List.foldl_cons, inner (laneIdx cars x)]
        exact ih
  exact outer _

/-- One engine step on an all-finished active set: every proposal is
`Stop`, nothing shrinks the tick, all cars are moved to the finished
list, and the step reports all-finished after advancing time by exactly
the tick ceiling. -/
theorem update_all_finished (sim : SimState)
    (hfin : ∀ c ∈ sim.cars, c.finished = true)
    (htick : sim.setting.tick ≤ fMAX) :
    updateE sim = some ((updateCore sim).1, true) ∧
    (updateCore sim).1.t = sim.t + sim.setting.tick ∧
    (updateCore sim).1.cars = [] := by
  have hsorted : ∀ c ∈ sortCars sim.cars, c.finished = true := fun c hc =>
    hfin c ((List.perm_insertionSort _ _).mem_iff.mp hc)
  have hprop : ∀ c ∈ proposedCars sim,
      c.action = Action.Stop ∧ c.finished = true := by
    intro c hc
    unfold proposedCars at hc
    obtain ⟨c0, hc0, rfl⟩ := List.mem_map.mp hc
    have hf0 := hsorted c0 hc0
    refine ⟨?_, hf0⟩
    show simpleDrive c0 sim.setting = Action.Stop
    unfold simpleDrive
    rw [hf0]
    rfl
  have hpassed : straightPass sim.setting (proposedCars sim)
      sim.setting.tick = (proposedCars sim, sim.setting.tick) :=
    straightPass_no_straight _ _ _
      (fun c hc => by rw [(hprop c hc).1]; simp) htick
  have hswitch : switchPass sim.setting sim.setting.tick
      (proposedCars sim) = proposedCars sim := by
    apply switchPass_no_switch
    intro i d
    by_cases hi : i < (proposedCars sim).length
    · rw [(hprop _ (gd_mem hi)).1]
      simp
    · unfold gd
      rw [List.getD_eq_default _ _ (le_of_not_lt hi)]
      simp [default]
  have hint : integratedCars sim = proposedCars sim := by
    unfold integratedCars
    simp only []
    rw [hpassed]
    simp only []
    rw [hswitch]
    have hid : ∀ c ∈ proposedCars sim,
        c.updatePhys sim.setting.tick sim.setting = c := by
      intro c hc
      unfold Car.updatePhys
      rw [(hprop c hc).1]
    rw [List.map_eq_map_iff.mpr (fun c hc => hid c hc)]
    exact List.map_id' _
  have hnext : (updateCore sim).1.cars = [] := by
    show ((integratedCars sim).filter (fun c => !c.finished)) = []
    rw [hint]
    exact List.filter_eq_nil_iff.mpr
      (fun c hc => by rw [(hprop c hc).2]; simp)
  have haf : (updateCore sim).2.1 = true := by
    show ((integratedCars sim).filter (fun c => !c.finished)).isEmpty = true
    have := hnext
    rw [show ((integratedCars sim).filter (fun c => !c.finished)) =
      (updateCore sim).1.cars from rfl, this]
    rfl
  refine ⟨?_, ?_, hnext⟩
  · show (if (updateCore sim).2.2 || (updateCore sim).2.1 then
      some ((updateCore sim).1, (updateCore sim).2.1) else none) =
      some ((updateCore sim).1, true)
    rw [haf, Bool.or_true, if_pos rfl]
  · show sim.t + stepTick sim = sim.t + sim.setting.tick
    unfold stepTick
    rw [hpassed]

/-- Claim C8 (amended): a run whose cars are all finished at construction
terminates after a single step reporting all-finished, with finish time
exactly one tick ceiling (`setting.tick`) — not 0, since `update` adds
the tick to the clock before completion bookkeeping. -/
theorem c8_all_finished_run (sim : SimState) (maxT : ℚ) (n : ℕ)
    (hfin : ∀ c ∈ sim.cars, c.finished = true)
    (ht0 : sim.t = 0)
    (hmax : 0 < maxT ∨ maxT < 0)
    (htick : sim.setting.tick ≤ fMAX) :
    ∃ sim1, simRunAux (n + 1) sim maxT = some sim1 ∧
      sim1.t = sim.setting.tick ∧ sim1.cars = [] := by
  obtain ⟨hE, hT, hC⟩ := update_all_finished sim hfin htick
  refine ⟨(updateCore sim).1, ?_, by rw [hT, ht0, zero_add], hC⟩
  unfold simRunAux
  rw [if_pos ?cond, hE]
  case cond =>
    rcases hmax with hm | hm
    · exact Or.inl (by rw [ht0]; exact hm)
    · exact Or.inr hm

/-- Witness for C8 (amended): the already-finished single-car scenario
finishes in one step with finish time `1/10`, the tick ceiling. -/
theorem c8_all_finished_run_witness :
    ∃ sim1, simRunAux 1 simDone 10 = some sim1 ∧
      sim1.t = simDone.setting.tick ∧ sim1.cars = [] := by
  refine c8_all_finished_run simDone 10 0 ?_ rfl (by norm_num) ?_
  · intro c hc
    rw [List.mem_singleton.mp hc]
    norm_num [Car.finished, carDone, normSq, cosq, wrapPrincipal_eq_self,
      piq, DIST_ALLOW, decide_eq_true_eq]
  · norm_num [simDone, unitSetting, fMAX]

/-- Claim C2 (code evaluation): `switch_collision` does **not** flag a
conflict when the switching car's target angle (`1/10`) lies strictly
inside the arc (`[0, 1/5]`) the straight-moving neighbor sweeps during
the tentative tick, yet flags one when the target lies beyond the end of
that arc (`3/10`): the test `arg(other_target / switch_target) ≤ 0` is
satisfied exactly when the neighbor's end-of-tick position is at or
behind the switch target. -/
theorem c2_switch_collision_eval :
    switchCollision setTwoLane carSwitchInside carNbr (1 / 5) = false ∧
    switchCollision setTwoLane carSwitchBeyond carNbr (1 / 5) = true := by
  constructor <;>
    norm_num [switchCollision, carSwitchInside, carSwitchBeyond, carNbr,
      setTwoLane, wrapPrincipal_eq_self, piq, List.getD_cons_zero,
      decide_eq_true_eq]

/-- Claim C3 (modelled from the spec, the check being absent from the
src snapshot): for two cars switching in the same radial direction in the
same lane, angularly within half the minimal alignment tolerance, that
would meet before the tentative tick elapses, the side-collision check
clamps the tick to the time-to-contact, or forces one car to `Stop` when
that time is at or below the minimal threshold. -/
theorem c3_side_collision (a b : Car) (tick : ℚ) (d : ℤ) (t : ℚ)
    (ha : a.action = Action.Switch d) (hb : b.action = Action.Switch d)
    (hlane : a.lane = b.lane)
    (hclose : |wrapPrincipal (a.pos.theta - b.pos.theta)| ≤ THETA_ALLOW / 2)
    (ht : sideTimeToContact a b = some t) (hmeet : t < tick) :
    sideCollisionStep a b tick =
      (if t ≤ MIN_UPDATE_TICK then SideOutcome.stopOne else SideOutcome.clampTo t) := by
  unfold sideCollisionStep
  simp only [ha, hb]
  rw [if_pos ⟨trivial, hlane, hclose⟩, ht]
  simp only []
  rw [if_pos hmeet]

/-- Witness for C3: two aligned same-direction switchers radially `1/8`
apart closing at relative speed 1 under a tentative tick of `1/2` clamp
the tick to `1/8`. -/
theorem c3_side_collision_witness :
    sideCollisionStep carSideA carSideB (1 / 2) = SideOutcome.clampTo (1 / 8) := by
  have h := c3_side_collision carSideA carSideB (1 / 2) 1 (1 / 8) rfl rfl rfl
    (by norm_num [carSideA, carSideB, wrapPrincipal_eq_self, piq, THETA_ALLOW])
    (by norm_num [sideTimeToContact, carSideA, carSideB]) (by norm_num)
  rwa [if_neg (by norm_num [MIN_UPDATE_TICK])] at h

/-- Claim C4 (modelled from the spec, the guard being absent from the src
snapshot, with `is_on_lane` taken from src/src/common.rs): the
consistency guard downgrades to `Stop` exactly the cars proposing
`Straight` while not aligned with their nominal lane radius, so that
after the guard every car still proposing `Straight` is on its lane. -/
theorem c4_consistency_guard (s : Setting) (cars : List Car) :
    (∀ i, gd (consistencyGuard s cars) i =
      (if (gd cars i).action = Action.Straight ∧
          is_on_lane (gd cars i).pos (s.rLanes.getD (gd cars i).lane 0) = false
        then { gd cars i with action := Action.Stop } else gd cars i)) ∧
    ∀ c ∈ consistencyGuard s cars, c.action = Action.Straight →
      is_on_lane c.pos (s.rLanes.getD c.lane 0) = true := by
  constructor
  · intro i
    unfold consistencyGuard gd
    rcases h : cars[i]? with _ | c
    · simp [List.getD, List.getElem?_map, h]
    · simp [List.getD, List.getElem?_map, h]
  · intro c hc hstraight
    unfold consistencyGuard at hc
    rcases List.mem_map.mp hc with ⟨c0, _, rfl⟩
    by_cases hcond : c0.action = Action.Straight ∧
        is_on_lane c0.pos (s.rLanes.getD c0.lane 0) = false
    · rw [if_pos hcond] at hstraight ⊢
      exact absurd hstraight (by simp)
    · rw [if_neg hcond] at hstraight ⊢
      rcases Bool.eq_false_or_eq_true (is_on_lane c0.pos (s.rLanes.getD c0.lane 0)) with h | h
      · exact h
      · exact absurd ⟨hstraight, h⟩ hcond

/-- Witness for C4: the on-lane straight car passes the guard unchanged
and is indeed on its lane. -/
theorem c4_consistency_guard_witness :
    is_on_lane carCruise.pos (unitSetting.rLanes.getD carCruise.lane 0) = true := by
  have hon : is_on_lane carCruise.pos (unitSetting.rLanes.getD carCruise.lane 0) = true := by
    norm_num [is_on_lane, carCruise, unitSetting, normSq, cosq,
      wrapPrincipal_eq_self, piq, DRIFT_ALLOW, decide_eq_true_eq]
  have hcond : ¬ (carCruise.action = Action.Straight ∧
      is_on_lane carCruise.pos (unitSetting.rLanes.getD carCruise.lane 0) = false) := by
    rintro ⟨-, hfalse⟩
    rw [hon] at hfalse
    simp at hfalse
  have hmem : carCruise ∈ consistencyGuard unitSetting [carCruise] := by
    unfold consistencyGuard
    simp only [List.map_cons, List.map_nil]
    rw [if_neg hcond]
    exact List.mem_singleton.mpr rfl
  exact (c4_consistency_guard unitSetting [carCruise]).2 carCruise hmem rfl

/-- Claim C6 (code evaluation): on lanes of radii `[3, 1]` with remaining
angle `6/5`, `SimpleDriver` (src/src/lib.rs:50, detour cost `2·r_inner`)
proposes `Switch 1`, while the claim's formula — detour cost
`2·(r_curr − r_inner)`, as in its own comment and in
`ShortestDistDriver` (src/src/drivers.rs:84) — yields `Straight`. -/
theorem c6_greedy_detour_eval :
    simpleDrive carGreedy setGreedy = Action.Switch 1 ∧
    shortestDistDrive carGreedy setGreedy = Action.Straight := by
  constructor <;>
    norm_num [simpleDrive, shortestDistDrive, carGreedy, setGreedy, Car.finished,
      normSq, cosq, Polar.argDiv, unwrapTheta, infLt, wrapPrincipal_eq_self, piq,
      THETA_ALLOW, DIST_ALLOW, List.getD_cons_zero, List.getD_cons_succ,
      decide_eq_true_eq]

/-- Claim C8 counterexample: a scenario whose only car is finished at
construction terminates all-finished, but with finish time `1/10` (one
tick ceiling), not 0: `update` advances `t` before completion
bookkeeping. -/
theorem c8_finish_time_counterexample :
    (simRunAux 2 simDone 10).map SimState.t = some (1 / 10) ∧ ((1 : ℚ) / 10 ≠ 0) := by
  norm_num [simRunAux, updateE, updateCore, integratedCars, stepTick,
    proposedCars, sortCars, List.insertionSort, simpleDrive, straightPass,
    straightPassLane, stopRuleStep, laneIdx, switchPass, switchPassCar, gd,
    Car.updatePhys, Car.finished, normSq, cosq, Polar.argDiv, unwrapTheta,
    wrapPrincipal_eq_self, piq, simDone, carDone, unitSetting, DIST_ALLOW,
    List.getD_cons_zero, decide_eq_true_eq, List.range_succ]

/-- Claim C9 counterexample: lane radii `[1, 1]` are not strictly
decreasing, yet both the settings object and the simulation are
constructed successfully — the reversed `is_sorted` check is non-strict. -/
theorem c9_equal_radii_accepted :
    settingNew rawEqualLanes = Except.ok settingEqualLanes ∧
    simNew settingEqualLanes rawEqualLanes =
      some { t := 0, setting := settingEqualLanes, cars := [], finishedCars := [] } := by
  constructor <;>
    norm_num [settingNew, parseLanes, rawEqualLanes, settingEqualLanes, simNew,
      carsFromRaw, List.chain'_cons, List.chain'_singleton]

/-- A member list with an unparseable entry aborts the collection loop. -/
theorem parseLanes_of_mem_none {l : List (Option ℚ)} (h : none ∈ l) :
    parseLanes l = none := by
  induction l with
  | nil => cases h
  | cons o rest ih =>
      cases o with
      | none => rfl
      | some x =>
          rcases List.mem_cons.mp h with h1 | h2
          · exact absurd h1 (by simp)
          · unfold parseLanes
            rw [ih h2]

/-- Claim C9 (amended): construction fails, producing no settings or
simulation object, when `r_lanes` is missing (empty member list), when a
lane radius is unparseable, when the parsed radii have an adjacent pair
that increases inward (fail the non-strict `is_sorted` of the reversed
list), when `n_inter` or `tick` is unparseable, or when `init` is
missing.  (As literally stated the claim is false: radii that are merely
not *strictly* decreasing — e.g. two equal adjacent radii — are accepted,
because the source's `is_sorted` check is non-strict; see the
counterexample.) -/
theorem c9_construction_failures (j : RawScenario) :
    (j.rLanes = [] → settingNew j = Except.error ConstructErr.panicked) ∧
    (none ∈ j.rLanes → settingNew j = Except.error ConstructErr.parseNone) ∧
    (∀ rl, parseLanes j.rLanes = some rl → ¬ List.Chain' (· ≤ ·) rl.reverse →
      settingNew j = Except.error ConstructErr.panicked) ∧
    (j.nInter = none → (settingNew j).isOk = false) ∧
    (j.tick = none → (settingNew j).isOk = false) ∧
    (∀ s, j.init = none → simNew s j = none) := by
  refine ⟨?_, ?_, ?_, ?_, ?_, ?_⟩
  · intro h
    simp [settingNew, h, parseLanes]
  · intro h
    simp [settingNew, parseLanes_of_mem_none h]
  · intro rl hrl hch
    simp only [settingNew, hrl]
    rw [if_neg (fun hand => hch hand.2)]
  · intro hni
    rcases hp : parseLanes j.rLanes with _ | rl
    · simp only [settingNew, hp]
      rfl
    · simp only [settingNew, hp]
      split
      · rw [hni]
        rfl
      · rfl
  · intro ht
    rcases hp : parseLanes j.rLanes with _ | rl
    · simp only [settingNew, hp]
      rfl
    · simp only [settingNew, hp]
      split
      · rcases j.nInter with _ | ni
        · rfl
        · simp only []
          rw [ht]
          rfl
      · rfl
  · intro s h
    simp [simNew, h]

/-- Witness for C9 (amended): a scenario missing both `r_lanes` and
`init` yields no settings object (assertion failure) and no simulation. -/
theorem c9_construction_failures_witness :
    settingNew rawEmpty = Except.error ConstructErr.panicked ∧
    simNew unitSetting rawEmpty = none := by
  have h := c9_construction_failures rawEmpty
  exact ⟨h.1 rfl, h.2.2.2.2.2 unitSetting rfl⟩

/-- Claim C10: physical integration is frame-preserving per action —
`Switch` leaves the angle unchanged, `Straight` leaves radius and lane
unchanged, `Stop` changes nothing, and no integration changes id, speed
or destination. -/
theorem c10_integration_frame (c : Car) (tick : ℚ) (s : Setting)
    (htheta : wrapPrincipal c.pos.theta = c.pos.theta) :
    ((c.updatePhys tick s).id = c.id ∧ (c.updatePhys tick s).vel = c.vel ∧
      (c.updatePhys tick s).dst = c.dst) ∧
    (∀ d, c.action = Action.Switch d →
      (c.updatePhys tick s).pos.theta = c.pos.theta) ∧
    (c.action = Action.Straight →
      (c.updatePhys tick s).pos.r = c.pos.r ∧ (c.updatePhys tick s).lane = c.lane) ∧
    (c.action = Action.Stop → c.updatePhys tick s = c) := by
  rcases hA : c.action with d | _ | _ <;>
    simp only [Car.updatePhys, hA, Polar.fromPolar] <;>
    constructor
  · split <;> simp [htheta]
  · refine ⟨fun e he => ?_, by simp, by simp⟩
    cases he
    split <;> simp [htheta]
  · split <;> simp
  · refine ⟨by simp, fun h => ?_, by simp⟩
    split <;> simp
  · simp
  · simp

/-- Witness for C10: the mid-switch car's integration keeps its id and
angle. -/
theorem c10_integration_frame_witness :
    (carMidSwitch.updatePhys (1 / 10) setTwoLane).id = carMidSwitch.id ∧
    (carMidSwitch.updatePhys (1 / 10) setTwoLane).pos.theta = carMidSwitch.pos.theta := by
  have h := c10_integration_frame carMidSwitch (1 / 10) setTwoLane
    (wrapPrincipal_eq_self (by norm_num [carMidSwitch, piq])
      (by norm_num [carMidSwitch, piq]))
  exact ⟨h.1.1, h.2.1 1 rfl⟩

end RoundaboutSim
